import Mathlib

/-!
Verification of the qb SQL query builder: a shallow embedding of the
statement templater (QueryBuilder) and of the tag-driven schema resolver
(getTable and friends), with theorems about the generated SQL text and the
resolution algorithm.
-/

set_option autoImplicit false

namespace QB

/-! ### Decimal rendering of naturals, as strconv.Itoa produces it -/

/-- Decimal digit character for a single digit value. -/
def digitChar : Nat → Char
  | 0 => '0' | 1 => '1' | 2 => '2' | 3 => '3' | 4 => '4'
  | 5 => '5' | 6 => '6' | 7 => '7' | 8 => '8' | _ => '9'

/-- Numeric value of a decimal digit character. -/
def digitVal (c : Char) : Nat := c.toNat - 48

/-- Fueled most-significant-first decimal digit expansion. -/
def natDigitsAux : Nat → Nat → List Char
  | 0, _ => []
  | fuel + 1, n =>
    if n < 10 then [digitChar n]
    else natDigitsAux fuel (n / 10) ++ [digitChar (n % 10)]

/-- Decimal string of a natural number, as Go strconv.Itoa renders it. -/
def natToStr (n : Nat) : String := ⟨natDigitsAux (n + 1) n⟩

/-- Value of a most-significant-first decimal digit list. -/
def natOfDigits (ds : List Char) : Nat :=
  ds.foldl (fun a c => a * 10 + digitVal c) 0

theorem digitChar_isDigit (d : Nat) : (digitChar d).isDigit = true := by
  unfold digitChar
  split <;> decide

theorem digitVal_digitChar (d : Nat) (h : d < 10) : digitVal (digitChar d) = d := by
  interval_cases d <;> decide

theorem natDigitsAux_ne_nil (fuel n : Nat) (h : n < fuel) : natDigitsAux fuel n ≠ [] := by
  induction fuel generalizing n with
  | zero => omega
  | succ fuel ih =>
    unfold natDigitsAux
    split
    · simp
    · simp

theorem natDigitsAux_all_digits (fuel n : Nat) :
    ∀ c ∈ natDigitsAux fuel n, c.isDigit = true := by
  induction fuel generalizing n with
  | zero => intro c hc; simp [natDigitsAux] at hc
  | succ fuel ih =>
    intro c hc
    unfold natDigitsAux at hc
    split at hc
    · simp at hc; subst hc; exact digitChar_isDigit n
    · simp at hc
      rcases hc with hc | hc
      · exact ih _ c hc
      · subst hc; exact digitChar_isDigit (n % 10)

theorem natOfDigits_append_digit (a : List Char) (c : Char) :
    natOfDigits (a ++ [c]) = natOfDigits a * 10 + digitVal c := by
  simp [natOfDigits, List.foldl_append]

theorem natOfDigits_natDigitsAux (fuel n : Nat) (h : n < fuel) :
    natOfDigits (natDigitsAux fuel n) = n := by
  induction fuel generalizing n with
  | zero => omega
  | succ fuel ih =>
    unfold natDigitsAux
    split
    · next h10 =>
      simp [natOfDigits, List.foldl]
      exact digitVal_digitChar n h10
    · next h10 =>
      rw [natOfDigits_append_digit]
      have hdiv : n / 10 < n := Nat.div_lt_self (by omega) (by omega)
      rw [ih (n / 10) (by omega)]
      rw [digitVal_digitChar (n % 10) (Nat.mod_lt n (by omega))]
      omega

theorem natToStr_data_ne_nil (n : Nat) : (natToStr n).data ≠ [] :=
  natDigitsAux_ne_nil (n + 1) n (by omega)

theorem natToStr_all_digits (n : Nat) : ∀ c ∈ (natToStr n).data, c.isDigit = true :=
  natDigitsAux_all_digits (n + 1) n

theorem natOfDigits_natToStr (n : Nat) : natOfDigits (natToStr n).data = n :=
  natOfDigits_natDigitsAux (n + 1) n (by omega)

/-! ### The statement templater, translated from query_builder.go -/

def idColumn : String := "id"
def createdAtColumn : String := "created_at"
def deletedAtColumn : String := "deleted_at"

/-- QueryBuilder provides a simple list of SQL queries that can be used by the
models, as in the source. -/
structure QueryBuilder where
  Table : String
  Columns : List String
  SelectDeleted : Bool
deriving Repr, DecidableEq

/-- NewQueryBuilder returns a new query builder configured with the given
table and columns. -/
def NewQueryBuilder (table : String) (columns : List String) : QueryBuilder :=
  { Table := table, Columns := columns, SelectDeleted := false }

/-- Comma-space join, as strings.Join with separator ", " behaves. -/
def join : List String → String
  | [] => ""
  | [s] => s
  | s :: rest => s ++ ", " ++ join rest

def QueryBuilder.columns (q : QueryBuilder) : String := join q.Columns

def QueryBuilder.values (q : QueryBuilder) : String :=
  join ((List.range q.Columns.length).map (fun i => "$" ++ natToStr (i + 1)))

/-- Select returns the query to get a record by id. -/
def QueryBuilder.Select (q : QueryBuilder) : String :=
  let s := "SELECT " ++ q.columns ++ " FROM " ++ q.Table ++ " WHERE id = $1"
  if !q.SelectDeleted then s ++ " AND deleted_at IS NULL" else s

/-- Loop of SelectBy appending the extra name conditions with binds i+2. -/
def selectByExtras : List String → Nat → String
  | [], _ => ""
  | n :: rest, i => " AND " ++ n ++ " = $" ++ natToStr (i + 2) ++ selectByExtras rest (i + 1)

/-- SelectBy returns a query to get a record by the given column name. -/
def QueryBuilder.SelectBy (q : QueryBuilder) (name : String) (extraNames : List String) :
    String :=
  let s := "SELECT " ++ q.columns ++ " FROM " ++ q.Table ++ " WHERE " ++ name ++ " = $1"
  let s := s ++ selectByExtras extraNames 0
  if !q.SelectDeleted then s ++ " AND deleted_at IS NULL" else s

/-- SelectAll returns a query to get all entries in a table. -/
def QueryBuilder.SelectAll (q : QueryBuilder) : String :=
  if !q.SelectDeleted then
    "SELECT " ++ q.columns ++ " FROM " ++ q.Table ++ " WHERE deleted_at IS NULL"
  else
    "SELECT " ++ q.columns ++ " FROM " ++ q.Table

/-- Insert returns the query to insert a record. -/
def QueryBuilder.Insert (q : QueryBuilder) : String :=
  "INSERT INTO " ++ q.Table ++ " (" ++ q.columns ++ ") VALUES (" ++ q.values ++ ")"

/-- Loop of InsertWithReturning: collect non-id columns and their binds,
incrementing the bind position only on collected columns. -/
def insertRetLoop : List String → Nat → List String × List String
  | [], _ => ([], [])
  | name :: rest, pos =>
    if name ≠ idColumn then
      let (cs, vs) := insertRetLoop rest (pos + 1)
      (name :: cs, ("$" ++ natToStr pos) :: vs)
    else
      insertRetLoop rest pos

/-- InsertWithReturning returns the query to insert that returns the id. -/
def QueryBuilder.InsertWithReturning (q : QueryBuilder) : String :=
  let (columns, values) := insertRetLoop q.Columns 1
  "INSERT INTO " ++ q.Table ++ " (" ++ join columns ++ ") VALUES (" ++ join values ++
    ") RETURNING id"

/-- Loop of Update: build the SET assignments over the non-id, non-created-at
columns, returning the assignments and the next bind position. -/
def updateLoop : List String → Nat → List String × Nat
  | [], pos => ([], pos)
  | name :: rest, pos =>
    if name ≠ idColumn && name ≠ createdAtColumn then
      let (v, p) := updateLoop rest (pos + 1)
      ((name ++ " = $" ++ natToStr pos) :: v, p)
    else
      updateLoop rest pos

/-- Update returns the query to update a record, excluding id and created_at. -/
def QueryBuilder.Update (q : QueryBuilder) : String :=
  let (v, pos) := updateLoop q.Columns 1
  "UPDATE " ++ q.Table ++ " SET " ++ join v ++ " WHERE id = $" ++ natToStr pos

/-- Delete returns the query to mark a record as deleted. -/
def QueryBuilder.Delete (q : QueryBuilder) : String :=
  "UPDATE " ++ q.Table ++ " SET deleted_at = $1 WHERE id = $2"

/-- HardDelete returns the query to delete a row by id. -/
def QueryBuilder.HardDelete (q : QueryBuilder) : String :=
  "DELETE FROM " ++ q.Table ++ " WHERE id = $1"

/-! ### Characterizations of the generator loops -/

theorem string_data_append (a b : String) : (a ++ b).data = a.data ++ b.data := by
  cases a; cases b; rfl

theorem string_append_assoc (a b c : String) : a ++ b ++ c = a ++ (b ++ c) := by
  apply String.ext
  simp [string_data_append]

/-- Filter retained by the Update loop. -/
def updFilter (cols : List String) : List String :=
  cols.filter (fun n => n ≠ idColumn && n ≠ createdAtColumn)

theorem updateLoop_eq (cols : List String) (pos : Nat) :
    updateLoop cols pos =
      (List.zipWith (fun i n => n ++ " = $" ++ natToStr i)
          (List.range' pos (updFilter cols).length) (updFilter cols),
        pos + (updFilter cols).length) := by
  induction cols generalizing pos with
  | nil => simp [updateLoop, updFilter]
  | cons name rest ih =>
    by_cases hb : (name ≠ idColumn && name ≠ createdAtColumn) = true
    · have hf : updFilter (name :: rest) = name :: updFilter rest := by
        simp only [updFilter, List.filter_cons, hb, if_true]
      rw [hf]
      simp only [updateLoop, hb, if_true, ih (pos + 1), List.length_cons,
        List.range'_succ, List.zipWith_cons_cons, Prod.mk.injEq]
      exact ⟨trivial, by omega⟩
    · have hb' : (name ≠ idColumn && name ≠ createdAtColumn) = false := by
        simpa using hb
      have hf : updFilter (name :: rest) = updFilter rest := by
        simp only [updFilter, List.filter_cons, hb', if_false, Bool.false_eq_true]
      rw [hf]
      simp only [updateLoop, hb', Bool.false_eq_true, if_false, ih pos]

/-- Filter retained by the InsertWithReturning loop. -/
def retFilter (cols : List String) : List String :=
  cols.filter (fun n => n ≠ idColumn)

theorem insertRetLoop_eq (cols : List String) (pos : Nat) :
    insertRetLoop cols pos =
      (retFilter cols,
        (List.range' pos (retFilter cols).length).map (fun i => "$" ++ natToStr i)) := by
  induction cols generalizing pos with
  | nil => simp [insertRetLoop, retFilter]
  | cons name rest ih =>
    by_cases hn : name = idColumn
    · have hf : retFilter (name :: rest) = retFilter rest := by
        simp [retFilter, List.filter_cons, hn]
      rw [hf]
      rw [show insertRetLoop (name :: rest) pos = insertRetLoop rest pos by
        simp [insertRetLoop, hn]]
      exact ih pos
    · have hf : retFilter (name :: rest) = name :: retFilter rest := by
        simp [retFilter, List.filter_cons, hn]
      rw [hf]
      rw [show insertRetLoop (name :: rest) pos =
          (name :: (insertRetLoop rest (pos + 1)).1,
            ("$" ++ natToStr pos) :: (insertRetLoop rest (pos + 1)).2) by
        simp [insertRetLoop, hn]]
      simp only [ih (pos + 1), List.length_cons, List.range'_succ, List.map_cons]

/-- Shape of the Update statement in terms of the filtered column list. -/
theorem update_shape (q : QueryBuilder) :
    q.Update =
      "UPDATE " ++ q.Table ++ " SET " ++
        join (List.zipWith (fun i n => n ++ " = $" ++ natToStr i)
          (List.range' 1 (updFilter q.Columns).length) (updFilter q.Columns)) ++
      " WHERE id = $" ++ natToStr ((updFilter q.Columns).length + 1) := by
  unfold QueryBuilder.Update
  rw [updateLoop_eq]
  simp [Nat.add_comm]

/-- Shape of InsertWithReturning in terms of Insert over the filtered list. -/
theorem insert_returning_shape (q : QueryBuilder) :
    q.InsertWithReturning =
      (QueryBuilder.mk q.Table (retFilter q.Columns) q.SelectDeleted).Insert ++
        " RETURNING id" := by
  unfold QueryBuilder.InsertWithReturning QueryBuilder.Insert
  rw [insertRetLoop_eq]
  simp only [QueryBuilder.columns, QueryBuilder.values]
  have hmap : (List.range (retFilter q.Columns).length).map
      (fun i => "$" ++ natToStr (i + 1)) =
      (List.range' 1 (retFilter q.Columns).length).map (fun i => "$" ++ natToStr i) := by
    rw [List.range'_eq_map_range, List.map_map]
    apply List.map_congr_left
    intro i _
    simp [Nat.add_comm]
  rw [hmap]
  rw [show (") RETURNING id" : String) = ")" ++ " RETURNING id" from rfl]
  simp [string_append_assoc]

/-- C3: for every table name and column list, the SET clause of Update lists
exactly the columns, in order, that are neither the primary key column id nor
the created_at column, with binds numbered 1..k in order, and the WHERE
clause binds the primary key at position k+1. -/
theorem update_excludes_id_and_created_at (q : QueryBuilder) :
    q.Update =
      "UPDATE " ++ q.Table ++ " SET " ++
        join (List.zipWith (fun i n => n ++ " = $" ++ natToStr i)
          (List.range' 1 (updFilter q.Columns).length) (updFilter q.Columns)) ++
      " WHERE id = $" ++ natToStr ((updFilter q.Columns).length + 1) :=
  update_shape q

/-- C4: the Insert-returning-key statement equals the Insert statement built
over the column list with the primary key column removed (bind numbering
restarting at 1 over the reduced set) with RETURNING id appended. -/
theorem insert_returning_removes_pk (q : QueryBuilder) :
    q.InsertWithReturning =
      (QueryBuilder.mk q.Table (retFilter q.Columns) q.SelectDeleted).Insert ++
        " RETURNING id" :=
  insert_returning_shape q

/-- C5: Select-all renders SELECT cols FROM table, with the soft delete
filter appended exactly when includeSoftDeleted is false. -/
theorem select_all_shape (T : String) (C : List String) (_h : C ≠ []) :
    (QueryBuilder.mk T C false).SelectAll =
      "SELECT " ++ join C ++ " FROM " ++ T ++ " WHERE deleted_at IS NULL" ∧
    (QueryBuilder.mk T C true).SelectAll =
      "SELECT " ++ join C ++ " FROM " ++ T := by
  exact ⟨rfl, rfl⟩

/-- Witness for the select all shape theorem on the users table of the tests. -/
theorem select_all_shape_witness :
    (QueryBuilder.mk "users" ["id", "name", "email"] false).SelectAll =
      "SELECT " ++ join ["id", "name", "email"] ++ " FROM " ++ "users" ++
        " WHERE deleted_at IS NULL" ∧
    (QueryBuilder.mk "users" ["id", "name", "email"] true).SelectAll =
      "SELECT " ++ join ["id", "name", "email"] ++ " FROM " ++ "users" :=
  select_all_shape "users" ["id", "name", "email"] (by decide)

/-! ### A scanner extracting positional bind numbers from statement text -/

/-- Scanner state: none is plain text, some (acc, started) is a digit run
after a dollar sign with accumulated value acc; started records whether at
least one digit was consumed. -/
def scanAux : Option (Nat × Bool) → List Char → List Nat
  | st, [] =>
    match st with
    | some (acc, true) => [acc]
    | _ => []
  | st, c :: cs =>
    match st with
    | some (acc, started) =>
      if c.isDigit then scanAux (some (acc * 10 + digitVal c, true)) cs
      else if started then
        acc :: (if c = '$' then scanAux (some (0, false)) cs else scanAux none cs)
      else
        if c = '$' then scanAux (some (0, false)) cs else scanAux none cs
    | none => if c = '$' then scanAux (some (0, false)) cs else scanAux none cs

/-- Bind numbers appearing in a piece of SQL text, in order of appearance. -/
def scanBinds (cs : List Char) : List Nat := scanAux none cs

/-- Text free of dollar signs. -/
def noDollar (cs : List Char) : Prop := '$' ∉ cs

instance (cs : List Char) : Decidable (noDollar cs) :=
  inferInstanceAs (Decidable ('$' ∉ cs))

/-- Text whose first character, if any, is not a digit. -/
def headNonDigit : List Char → Prop
  | [] => True
  | c :: _ => c.isDigit = false

instance headNonDigitDec : (cs : List Char) → Decidable (headNonDigit cs)
  | [] => .isTrue trivial
  | c :: _ => inferInstanceAs (Decidable (c.isDigit = false))

theorem noDollar_append {a b : List Char} (ha : noDollar a) (hb : noDollar b) :
    noDollar (a ++ b) := by
  simp only [noDollar, List.mem_append] at *
  tauto

theorem noDollar_str_append {a b : String} (ha : noDollar a.data) (hb : noDollar b.data) :
    noDollar (a ++ b).data := by
  rw [string_data_append]; exact noDollar_append ha hb

theorem noDollar_join {l : List String} (h : ∀ s ∈ l, noDollar s.data) :
    noDollar (join l).data := by
  induction l with
  | nil => decide
  | cons s rest ih =>
    cases rest with
    | nil => exact h s (by simp)
    | cons t rest' =>
      rw [show join (s :: t :: rest') = s ++ ", " ++ join (t :: rest') from rfl]
      refine noDollar_str_append (noDollar_str_append (h s (by simp)) (by decide)) ?_
      exact ih (fun x hx => h x (by simp at hx ⊢; tauto))

theorem scan_append_noDollar (a b : List Char) (ha : noDollar a) :
    scanAux none (a ++ b) = scanAux none b := by
  induction a with
  | nil => rfl
  | cons c a ih =>
    have hc : ¬(c = '$') := by
      intro hc; exact ha (by simp [hc])
    rw [List.cons_append]
    rw [show scanAux none (c :: (a ++ b)) =
        if c = '$' then scanAux (some (0, false)) (a ++ b) else scanAux none (a ++ b)
      from rfl]
    rw [if_neg hc]
    exact ih (fun hmem => ha (by simp [hmem]))

theorem scan_noDollar_nil {b : List Char} (hb : noDollar b) : scanAux none b = [] := by
  have := scan_append_noDollar b [] hb
  simpa using this

theorem scan_some_true (a : Nat) (b : List Char) (hb : headNonDigit b) :
    scanAux (some (a, true)) b = a :: scanAux none b := by
  cases b with
  | nil => rfl
  | cons c cs =>
    have hc : c.isDigit = false := hb
    rw [show scanAux (some (a, true)) (c :: cs) =
        if c.isDigit then scanAux (some (a * 10 + digitVal c, true)) cs
        else a :: (if c = '$' then scanAux (some (0, false)) cs else scanAux none cs)
      from by simp [scanAux]]
    rw [show scanAux none (c :: cs) =
        if c = '$' then scanAux (some (0, false)) cs else scanAux none cs from rfl]
    simp [hc]

theorem scan_digits (ds : List Char) (b : List Char) (hb : headNonDigit b) :
    ∀ acc st, ds ≠ [] → (∀ d ∈ ds, d.isDigit = true) →
      scanAux (some (acc, st)) (ds ++ b) =
        (ds.foldl (fun a c => a * 10 + digitVal c) acc) :: scanAux none b := by
  induction ds with
  | nil => intro _ _ h; exact absurd rfl h
  | cons d ds ih =>
    intro acc st _ hall
    have hd : d.isDigit = true := hall d (by simp)
    rw [List.cons_append]
    rw [show scanAux (some (acc, st)) (d :: (ds ++ b)) =
        if d.isDigit then scanAux (some (acc * 10 + digitVal d, true)) (ds ++ b)
        else if st then
          acc :: (if d = '$' then scanAux (some (0, false)) (ds ++ b)
                  else scanAux none (ds ++ b))
        else
          (if d = '$' then scanAux (some (0, false)) (ds ++ b)
           else scanAux none (ds ++ b))
      from by simp [scanAux]]
    rw [if_pos hd]
    cases ds with
    | nil =>
      simp only [List.nil_append, List.foldl]
      exact scan_some_true _ b hb
    | cons d' ds' =>
      rw [ih (acc * 10 + digitVal d) true (by simp) (fun x hx => hall x (by simp [hx]))]
      rfl

theorem scan_bind (k : Nat) (b : List Char) (hb : headNonDigit b) :
    scanAux none ('$' :: (natToStr k).data ++ b) = k :: scanAux none b := by
  rw [List.cons_append]
  rw [show scanAux none ('$' :: ((natToStr k).data ++ b)) =
      scanAux (some (0, false)) ((natToStr k).data ++ b) from by simp [scanAux]]
  rw [scan_digits (natToStr k).data b hb 0 false (natToStr_data_ne_nil k)
    (natToStr_all_digits k)]
  rw [show (natToStr k).data.foldl (fun a c => a * 10 + digitVal c) 0 = k from
    natOfDigits_natToStr k]

theorem join_cons_ne (x : String) (l : List String) (h : l ≠ []) :
    join (x :: l) = x ++ ", " ++ join l := by
  cases l with
  | nil => exact absurd rfl h
  | cons y ys => rfl

theorem scan_prefixed_bind (p : String) (hp : noDollar p.data) (k : Nat) (b : List Char)
    (hb : headNonDigit b) :
    scanAux none ((p ++ "$" ++ natToStr k).data ++ b) = k :: scanAux none b := by
  have hd : (p ++ "$" ++ natToStr k).data ++ b =
      p.data ++ ('$' :: ((natToStr k).data ++ b)) := by
    simp [string_data_append, List.append_assoc]
  rw [hd, scan_append_noDollar p.data _ hp]
  rw [← List.cons_append]
  exact scan_bind k b hb

theorem dollar_data : ("$" : String).data = ['$'] := rfl

theorem headNonDigit_cons {c : Char} (h : c.isDigit = false) (X : List Char) :
    headNonDigit (c :: X) := h

theorem headNonDigit_commaSp (X : List Char) : headNonDigit ((", " : String).data ++ X) := by
  rw [show (", " : String).data = [',', ' '] from rfl, List.cons_append]
  exact headNonDigit_cons (by decide) _

theorem scan_values (k : Nat) :
    ∀ (a : Nat) (tail : List Char), headNonDigit tail →
      scanAux none
          ((join ((List.range' a k).map (fun i => "$" ++ natToStr i))).data ++ tail) =
        List.range' a k ++ scanAux none tail := by
  induction k with
  | zero =>
    intro a tail _
    simp [join]
  | succ k ih =>
    intro a tail ht
    rw [List.range'_succ, List.map_cons]
    cases k with
    | zero =>
      rw [show ((List.range' (a + 1) 0).map (fun i => "$" ++ natToStr i)) =
        ([] : List String) from rfl]
      rw [show join ["$" ++ natToStr a] = "$" ++ natToStr a from rfl]
      rw [string_data_append, dollar_data, List.singleton_append]
      rw [scan_bind a tail ht]
      simp
    | succ k' =>
      have hne : (List.range' (a + 1) (k' + 1)).map (fun i => "$" ++ natToStr i) ≠ [] := by
        simp
      rw [join_cons_ne _ _ hne]
      have hd : ((("$" ++ natToStr a) ++ ", ") ++
            join ((List.range' (a + 1) (k' + 1)).map (fun i => "$" ++ natToStr i))).data
            ++ tail =
          ('$' :: (natToStr a).data) ++
            ((", " : String).data ++
              ((join ((List.range' (a + 1) (k' + 1)).map
                (fun i => "$" ++ natToStr i))).data ++ tail)) := by
        simp [string_data_append, dollar_data, List.append_assoc]
      rw [hd]
      rw [scan_bind a _ (headNonDigit_commaSp _)]
      rw [scan_append_noDollar ((", " : String).data) _ (by decide)]
      rw [ih (a + 1) tail ht]
      simp [List.range'_succ]

theorem scan_set (ns : List String) :
    ∀ (a : Nat) (tail : List Char), (∀ n ∈ ns, noDollar n.data) → headNonDigit tail →
      scanAux none
          ((join (List.zipWith (fun i n => n ++ " = $" ++ natToStr i)
            (List.range' a ns.length) ns)).data ++ tail) =
        List.range' a ns.length ++ scanAux none tail := by
  induction ns with
  | nil => intro a tail _ _; simp [join]
  | cons n ns ih =>
    intro a tail hnd ht
    have hps : (n ++ " = $" : String) = (n ++ " = ") ++ "$" := by
      rw [show (" = $" : String) = " = " ++ "$" from rfl, ← string_append_assoc]
    have hp : noDollar ((n ++ " = ") : String).data :=
      noDollar_str_append (hnd n (by simp)) (by decide)
    rw [List.length_cons, List.range'_succ, List.zipWith_cons_cons]
    cases ns with
    | nil =>
      rw [show List.zipWith (fun i n => n ++ " = $" ++ natToStr i)
        (List.range' (a + 1) ([] : List String).length) [] = [] from rfl]
      rw [show join [n ++ " = $" ++ natToStr a] = n ++ " = $" ++ natToStr a from rfl]
      rw [hps]
      rw [scan_prefixed_bind _ hp a tail ht]
      simp
    | cons m ms =>
      have hne : List.zipWith (fun i n => n ++ " = $" ++ natToStr i)
          (List.range' (a + 1) (m :: ms).length) (m :: ms) ≠ [] := by
        rw [List.length_cons, List.range'_succ, List.zipWith_cons_cons]
        simp
      rw [join_cons_ne _ _ hne]
      have hd : (((n ++ " = $" ++ natToStr a) ++ ", ") ++
            join (List.zipWith (fun i n => n ++ " = $" ++ natToStr i)
              (List.range' (a + 1) (m :: ms).length) (m :: ms))).data ++ tail =
          ((n ++ " = ") ++ "$" ++ natToStr a).data ++
            ((", " : String).data ++
              ((join (List.zipWith (fun i n => n ++ " = $" ++ natToStr i)
                (List.range' (a + 1) (m :: ms).length) (m :: ms))).data ++ tail)) := by
        rw [hps]
        simp [string_data_append, List.append_assoc]
      rw [hd]
      rw [scan_prefixed_bind _ hp a _ (headNonDigit_commaSp _)]
      rw [scan_append_noDollar ((", " : String).data) _ (by decide)]
      rw [ih (a + 1) tail (fun x hx => hnd x (by simp [hx])) ht]
      rw [List.cons_append]


theorem headNonDigit_append {a b : List Char} (ha : headNonDigit a)
    (hb : headNonDigit b) : headNonDigit (a ++ b) := by
  cases a with
  | nil => simpa using hb
  | cons c cs => exact ha

theorem headNonDigit_extras (ns : List String) (i : Nat) :
    headNonDigit (selectByExtras ns i).data := by
  cases ns with
  | nil => trivial
  | cons m ms =>
    rw [show selectByExtras (m :: ms) i =
      " AND " ++ (m ++ (" = $" ++ (natToStr (i + 2) ++ selectByExtras ms (i + 1)))) from by
      simp only [selectByExtras, string_append_assoc]]
    rw [string_data_append]
    rw [show (" AND " : String).data = ' ' :: ['A', 'N', 'D', ' '] from rfl]
    rw [List.cons_append]
    exact headNonDigit_cons (by decide) _

theorem scan_extras (ns : List String) :
    ∀ (i : Nat) (tail : List Char), (∀ n ∈ ns, noDollar n.data) → headNonDigit tail →
      scanAux none ((selectByExtras ns i).data ++ tail) =
        List.range' (i + 2) ns.length ++ scanAux none tail := by
  induction ns with
  | nil => intro i tail _ _; simp [selectByExtras]
  | cons n ns ih =>
    intro i tail hnd ht
    have hps : (" AND " ++ n ++ " = $" : String) = (" AND " ++ n ++ " = ") ++ "$" := by
      rw [show (" = $" : String) = " = " ++ "$" from rfl, ← string_append_assoc]
    have hp : noDollar ((" AND " ++ n ++ " = ") : String).data :=
      noDollar_str_append (noDollar_str_append (by decide) (hnd n (by simp))) (by decide)
    rw [show selectByExtras (n :: ns) i =
      (" AND " ++ n ++ " = $" ++ natToStr (i + 2)) ++ selectByExtras ns (i + 1) from rfl]
    have hd : ((" AND " ++ n ++ " = $" ++ natToStr (i + 2)) ++
          selectByExtras ns (i + 1)).data ++ tail =
        ((" AND " ++ n ++ " = ") ++ "$" ++ natToStr (i + 2)).data ++
          ((selectByExtras ns (i + 1)).data ++ tail) := by
      rw [hps]
      simp [string_data_append, List.append_assoc]
    rw [hd]
    rw [scan_prefixed_bind _ hp (i + 2) _
      (headNonDigit_append (headNonDigit_extras ns (i + 1)) ht)]
    rw [ih (i + 1) tail (fun x hx => hnd x (by simp [hx])) ht]
    rw [List.length_cons, List.range'_succ, List.cons_append]

/-- Variant of the bind scanning step in right-nested form. -/
theorem scan_bind_cons (k : Nat) (b : List Char) (hb : headNonDigit b) :
    scanAux none ('$' :: ((natToStr k).data ++ b)) = k :: scanAux none b := by
  rw [← List.cons_append]
  exact scan_bind k b hb

theorem values_eq_range (q : QueryBuilder) :
    q.values = join ((List.range' 1 q.Columns.length).map (fun i => "$" ++ natToStr i)) := by
  unfold QueryBuilder.values
  rw [List.range'_eq_map_range, List.map_map]
  congr 1
  apply List.map_congr_left
  intro i _
  simp [Nat.add_comm]

/-! ### Bind numbers of each generated statement -/

theorem scan_Select (q : QueryBuilder) (hT : noDollar q.Table.data)
    (hC : ∀ c ∈ q.Columns, noDollar c.data) :
    scanBinds q.Select.data = List.range' 1 1 := by
  unfold scanBinds
  rw [List.range'_one]
  cases hsd : q.SelectDeleted with
  | true =>
    rw [show q.Select = "SELECT " ++ q.columns ++ " FROM " ++ q.Table ++ " WHERE id = $1"
      from by simp [QueryBuilder.Select, hsd]]
    rw [show QueryBuilder.columns q = join q.Columns from rfl]
    repeat rw [string_data_append]
    repeat rw [List.append_assoc]
    rw [show (" WHERE id = $1" : String).data =
      (" WHERE id = " : String).data ++ ('$' :: (natToStr 1).data) from by decide]
    rw [scan_append_noDollar ("SELECT " : String).data _ (by decide)]
    rw [scan_append_noDollar (join q.Columns).data _ (noDollar_join hC)]
    rw [scan_append_noDollar (" FROM " : String).data _ (by decide)]
    rw [scan_append_noDollar q.Table.data _ hT]
    rw [scan_append_noDollar (" WHERE id = " : String).data _ (by decide)]
    rw [← List.append_nil (natToStr 1).data]
    rw [scan_bind_cons 1 [] trivial]
    rfl
  | false =>
    rw [show q.Select = ("SELECT " ++ q.columns ++ " FROM " ++ q.Table ++
        " WHERE id = $1") ++ " AND deleted_at IS NULL"
      from by simp [QueryBuilder.Select, hsd]]
    rw [show QueryBuilder.columns q = join q.Columns from rfl]
    repeat rw [string_data_append]
    repeat rw [List.append_assoc]
    rw [show (" WHERE id = $1" : String).data ++ (" AND deleted_at IS NULL" : String).data =
      (" WHERE id = " : String).data ++
        ('$' :: ((natToStr 1).data ++ (" AND deleted_at IS NULL" : String).data))
      from by decide]
    rw [scan_append_noDollar ("SELECT " : String).data _ (by decide)]
    rw [scan_append_noDollar (join q.Columns).data _ (noDollar_join hC)]
    rw [scan_append_noDollar (" FROM " : String).data _ (by decide)]
    rw [scan_append_noDollar q.Table.data _ hT]
    rw [scan_append_noDollar (" WHERE id = " : String).data _ (by decide)]
    rw [scan_bind_cons 1 _ (by decide)]
    rw [scan_noDollar_nil (by decide)]

theorem scan_SelectBy (q : QueryBuilder) (hT : noDollar q.Table.data)
    (hC : ∀ c ∈ q.Columns, noDollar c.data) (name : String) (hn : noDollar name.data)
    (extras : List String) (he : ∀ e ∈ extras, noDollar e.data) :
    scanBinds (q.SelectBy name extras).data = List.range' 1 (1 + extras.length) := by
  unfold scanBinds
  have hone : List.range' 1 (1 + extras.length) = 1 :: List.range' 2 extras.length := by
    rw [Nat.add_comm, List.range'_succ]
  cases hsd : q.SelectDeleted with
  | true =>
    rw [show q.SelectBy name extras =
        ("SELECT " ++ q.columns ++ " FROM " ++ q.Table ++ " WHERE " ++ name ++ " = $1")
          ++ selectByExtras extras 0
      from by simp [QueryBuilder.SelectBy, hsd]]
    rw [show QueryBuilder.columns q = join q.Columns from rfl]
    repeat rw [string_data_append]
    repeat rw [List.append_assoc]
    rw [show (" = $1" : String).data ++ (selectByExtras extras 0).data =
      (" = " : String).data ++
        ('$' :: ((natToStr 1).data ++ (selectByExtras extras 0).data)) from by
      rw [show (" = $1" : String).data =
        (" = " : String).data ++ ('$' :: (natToStr 1).data) from by decide]
      simp [List.append_assoc]]
    rw [scan_append_noDollar ("SELECT " : String).data _ (by decide)]
    rw [scan_append_noDollar (join q.Columns).data _ (noDollar_join hC)]
    rw [scan_append_noDollar (" FROM " : String).data _ (by decide)]
    rw [scan_append_noDollar q.Table.data _ hT]
    rw [scan_append_noDollar (" WHERE " : String).data _ (by decide)]
    rw [scan_append_noDollar name.data _ hn]
    rw [scan_append_noDollar (" = " : String).data _ (by decide)]
    rw [scan_bind_cons 1 _ (headNonDigit_extras extras 0)]
    rw [← List.append_nil (selectByExtras extras 0).data]
    rw [scan_extras extras 0 [] he trivial]
    rw [show scanAux none ([] : List Char) = [] from rfl]
    rw [hone]
    simp
  | false =>
    rw [show q.SelectBy name extras =
        (("SELECT " ++ q.columns ++ " FROM " ++ q.Table ++ " WHERE " ++ name ++ " = $1")
          ++ selectByExtras extras 0) ++ " AND deleted_at IS NULL"
      from by simp [QueryBuilder.SelectBy, hsd]]
    rw [show QueryBuilder.columns q = join q.Columns from rfl]
    repeat rw [string_data_append]
    repeat rw [List.append_assoc]
    rw [show (" = $1" : String).data ++ ((selectByExtras extras 0).data ++
        (" AND deleted_at IS NULL" : String).data) =
      (" = " : String).data ++
        ('$' :: ((natToStr 1).data ++ ((selectByExtras extras 0).data ++
          (" AND deleted_at IS NULL" : String).data))) from by
      rw [show (" = $1" : String).data =
        (" = " : String).data ++ ('$' :: (natToStr 1).data) from by decide]
      simp [List.append_assoc]]
    rw [scan_append_noDollar ("SELECT " : String).data _ (by decide)]
    rw [scan_append_noDollar (join q.Columns).data _ (noDollar_join hC)]
    rw [scan_append_noDollar (" FROM " : String).data _ (by decide)]
    rw [scan_append_noDollar q.Table.data _ hT]
    rw [scan_append_noDollar (" WHERE " : String).data _ (by decide)]
    rw [scan_append_noDollar name.data _ hn]
    rw [scan_append_noDollar (" = " : String).data _ (by decide)]
    rw [scan_bind_cons 1 _
      (headNonDigit_append (headNonDigit_extras extras 0) (by decide))]
    rw [scan_extras extras 0 (" AND deleted_at IS NULL" : String).data he (by decide)]
    rw [scan_noDollar_nil (by decide)]
    rw [hone]
    simp

theorem scan_Insert_tail (q : QueryBuilder) (hT : noDollar q.Table.data)
    (hC : ∀ c ∈ q.Columns, noDollar c.data) (tail : List Char)
    (_ht1 : headNonDigit tail) (ht2 : noDollar tail) :
    scanAux none (q.Insert.data ++ tail) = List.range' 1 q.Columns.length := by
  rw [show q.Insert = "INSERT INTO " ++ q.Table ++ " (" ++ q.columns ++ ") VALUES (" ++
      q.values ++ ")" from rfl]
  rw [show QueryBuilder.columns q = join q.Columns from rfl]
  rw [values_eq_range]
  repeat rw [string_data_append]
  repeat rw [List.append_assoc]
  rw [scan_append_noDollar ("INSERT INTO " : String).data _ (by decide)]
  rw [scan_append_noDollar q.Table.data _ hT]
  rw [scan_append_noDollar (" (" : String).data _ (by decide)]
  rw [scan_append_noDollar (join q.Columns).data _ (noDollar_join hC)]
  rw [scan_append_noDollar (") VALUES (" : String).data _ (by decide)]
  have hb : headNonDigit ((")" : String).data ++ tail) := headNonDigit_cons (by decide) _
  rw [scan_values q.Columns.length 1 _ hb]
  rw [scan_append_noDollar ((")" : String).data) _ (by decide)]
  rw [scan_noDollar_nil ht2]
  simp

theorem scan_Insert (q : QueryBuilder) (hT : noDollar q.Table.data)
    (hC : ∀ c ∈ q.Columns, noDollar c.data) :
    scanBinds q.Insert.data = List.range' 1 q.Columns.length := by
  unfold scanBinds
  rw [← List.append_nil q.Insert.data]
  exact scan_Insert_tail q hT hC [] trivial (by intro hc; simp at hc)

theorem scan_InsertWithReturning (q : QueryBuilder) (hT : noDollar q.Table.data)
    (hC : ∀ c ∈ q.Columns, noDollar c.data) :
    scanBinds q.InsertWithReturning.data = List.range' 1 (retFilter q.Columns).length := by
  unfold scanBinds
  rw [insert_returning_shape q]
  rw [string_data_append]
  have hfc : ∀ c ∈ retFilter q.Columns, noDollar c.data :=
    fun c hc => hC c (List.mem_filter.mp hc).1
  exact scan_Insert_tail (QueryBuilder.mk q.Table (retFilter q.Columns) q.SelectDeleted)
    hT hfc (" RETURNING id" : String).data (by decide) (by decide)

theorem scan_Update (q : QueryBuilder) (hT : noDollar q.Table.data)
    (hC : ∀ c ∈ q.Columns, noDollar c.data) :
    scanBinds q.Update.data = List.range' 1 ((updFilter q.Columns).length + 1) := by
  unfold scanBinds
  rw [update_shape q]
  repeat rw [string_data_append]
  repeat rw [List.append_assoc]
  rw [show (" WHERE id = $" : String).data ++
      (natToStr ((updFilter q.Columns).length + 1)).data =
    (" WHERE id = " : String).data ++
      ('$' :: ((natToStr ((updFilter q.Columns).length + 1)).data ++ [])) from by
    rw [show (" WHERE id = $" : String).data =
      (" WHERE id = " : String).data ++ ['$'] from by decide]
    simp [List.append_assoc]]
  rw [scan_append_noDollar ("UPDATE " : String).data _ (by decide)]
  rw [scan_append_noDollar q.Table.data _ hT]
  rw [scan_append_noDollar (" SET " : String).data _ (by decide)]
  have hfc : ∀ c ∈ updFilter q.Columns, noDollar c.data :=
    fun c hc => hC c (List.mem_filter.mp hc).1
  have hb : headNonDigit ((" WHERE id = " : String).data ++
      ('$' :: ((natToStr ((updFilter q.Columns).length + 1)).data ++ []))) :=
    headNonDigit_cons (by decide) _
  rw [scan_set (updFilter q.Columns) 1 _ hfc hb]
  rw [scan_append_noDollar ((" WHERE id = " : String).data) _ (by decide)]
  rw [scan_bind_cons _ [] trivial]
  rw [show scanAux none ([] : List Char) = [] from rfl]
  rw [List.range'_concat]
  simp [Nat.add_comm]

theorem scan_Delete (q : QueryBuilder) (hT : noDollar q.Table.data) :
    scanBinds q.Delete.data = List.range' 1 2 := by
  unfold scanBinds
  rw [show q.Delete = "UPDATE " ++ q.Table ++ " SET deleted_at = $1 WHERE id = $2"
    from rfl]
  repeat rw [string_data_append]
  repeat rw [List.append_assoc]
  rw [show (" SET deleted_at = $1 WHERE id = $2" : String).data =
    (" SET deleted_at = " : String).data ++
      ('$' :: ((natToStr 1).data ++ ((" WHERE id = " : String).data ++
        ('$' :: ((natToStr 2).data ++ []))))) from by decide]
  rw [scan_append_noDollar ("UPDATE " : String).data _ (by decide)]
  rw [scan_append_noDollar q.Table.data _ hT]
  rw [scan_append_noDollar ((" SET deleted_at = " : String).data) _ (by decide)]
  have hb : headNonDigit ((" WHERE id = " : String).data ++
      ('$' :: ((natToStr 2).data ++ []))) := headNonDigit_cons (by decide) _
  rw [scan_bind_cons 1 _ hb]
  rw [scan_append_noDollar ((" WHERE id = " : String).data) _ (by decide)]
  rw [scan_bind_cons 2 [] trivial]
  rfl

theorem scan_HardDelete (q : QueryBuilder) (hT : noDollar q.Table.data) :
    scanBinds q.HardDelete.data = List.range' 1 1 := by
  unfold scanBinds
  rw [show q.HardDelete = "DELETE FROM " ++ q.Table ++ " WHERE id = $1" from rfl]
  repeat rw [string_data_append]
  repeat rw [List.append_assoc]
  rw [show (" WHERE id = $1" : String).data =
    (" WHERE id = " : String).data ++ ('$' :: ((natToStr 1).data ++ [])) from by decide]
  rw [scan_append_noDollar ("DELETE FROM " : String).data _ (by decide)]
  rw [scan_append_noDollar q.Table.data _ hT]
  rw [scan_append_noDollar ((" WHERE id = " : String).data) _ (by decide)]
  rw [scan_bind_cons 1 [] trivial]
  rfl


/-- C6: in every generated statement with positional binds (Select, SelectBy
with any number of extra names, Insert, Insert returning, Update, soft delete,
hard delete) the bind numbers appearing in the text are exactly 1..n in order
of appearance with no gaps; in particular SelectBy applied to email and name
with soft delete filtering yields WHERE email = $1 AND name = $2 AND
deleted_at IS NULL. -/
theorem binds_sequential (q : QueryBuilder) (hT : noDollar q.Table.data)
    (hC : ∀ c ∈ q.Columns, noDollar c.data) :
    scanBinds q.Select.data = List.range' 1 1 ∧
    (∀ (name : String) (extras : List String), noDollar name.data →
      (∀ e ∈ extras, noDollar e.data) →
      scanBinds (q.SelectBy name extras).data = List.range' 1 (1 + extras.length)) ∧
    scanBinds q.Insert.data = List.range' 1 q.Columns.length ∧
    scanBinds q.InsertWithReturning.data = List.range' 1 (retFilter q.Columns).length ∧
    scanBinds q.Update.data = List.range' 1 ((updFilter q.Columns).length + 1) ∧
    scanBinds q.Delete.data = List.range' 1 2 ∧
    scanBinds q.HardDelete.data = List.range' 1 1 ∧
    (QueryBuilder.mk "users" ["id", "name", "email", "created_at", "deleted_at"]
        false).SelectBy "email" ["name"] =
      "SELECT id, name, email, created_at, deleted_at FROM users WHERE email = $1 AND name = $2 AND deleted_at IS NULL" :=
  ⟨scan_Select q hT hC,
   fun name extras hn he => scan_SelectBy q hT hC name hn extras he,
   scan_Insert q hT hC,
   scan_InsertWithReturning q hT hC,
   scan_Update q hT hC,
   scan_Delete q hT,
   scan_HardDelete q hT,
   by decide⟩

/-- Witness for the bind sequencing theorem at the users builder of the tests. -/
theorem binds_sequential_witness :
    scanBinds (QueryBuilder.mk "users" ["id", "name", "email", "created_at", "deleted_at"]
        false).Update.data = List.range' 1 4 ∧
    scanBinds ((QueryBuilder.mk "users" ["id", "name", "email", "created_at",
        "deleted_at"] false).SelectBy "email" ["name"]).data = List.range' 1 2 := by
  have h := binds_sequential (QueryBuilder.mk "users"
    ["id", "name", "email", "created_at", "deleted_at"] false) (by decide)
    (by decide)
  exact ⟨h.2.2.2.2.1, h.2.1 "email" ["name"] (by decide) (by decide)⟩


/-! ### Bind styles, modelled from the spec -/

/-- Modelled from the spec: the bindStyle enumeration of BuilderConfig. The
source code always renders dollar placeholders; the spec describes a second
style rendering every position as a bare question mark. -/
inductive BindStyle where
  | positionalDollar
  | positionalQuestion
deriving Repr, DecidableEq

/-- Modelled from the spec: POSITIONAL_DOLLAR renders position i as a dollar
sign followed by the decimal position; POSITIONAL_QUESTION renders every
position as a bare question mark. -/
def renderBind : BindStyle → Nat → String
  | .positionalDollar, i => "$" ++ natToStr i
  | .positionalQuestion, _ => "?"

/-- Styled variant of values, the source loop with renderBind substituted. -/
def styledValues (b : BindStyle) (q : QueryBuilder) : String :=
  join ((List.range q.Columns.length).map (fun i => renderBind b (i + 1)))

/-- Styled variant of Select. -/
def styledSelect (b : BindStyle) (q : QueryBuilder) : String :=
  if !q.SelectDeleted then
    "SELECT " ++ q.columns ++ " FROM " ++ q.Table ++ " WHERE id = " ++ renderBind b 1 ++
      " AND deleted_at IS NULL"
  else
    "SELECT " ++ q.columns ++ " FROM " ++ q.Table ++ " WHERE id = " ++ renderBind b 1

/-- Styled variant of the SelectBy extras loop. -/
def styledExtras (b : BindStyle) : List String → Nat → String
  | [], _ => ""
  | n :: rest, i =>
    " AND " ++ n ++ " = " ++ renderBind b (i + 2) ++ styledExtras b rest (i + 1)

/-- Styled variant of SelectBy. -/
def styledSelectBy (b : BindStyle) (q : QueryBuilder) (name : String)
    (extraNames : List String) : String :=
  if !q.SelectDeleted then
    "SELECT " ++ q.columns ++ " FROM " ++ q.Table ++ " WHERE " ++ name ++ " = " ++
      renderBind b 1 ++ styledExtras b extraNames 0 ++ " AND deleted_at IS NULL"
  else
    "SELECT " ++ q.columns ++ " FROM " ++ q.Table ++ " WHERE " ++ name ++ " = " ++
      renderBind b 1 ++ styledExtras b extraNames 0

/-- Styled variant of SelectAll, which carries no positional binds. -/
def styledSelectAll (_b : BindStyle) (q : QueryBuilder) : String :=
  q.SelectAll

/-- Styled variant of Insert. -/
def styledInsert (b : BindStyle) (q : QueryBuilder) : String :=
  "INSERT INTO " ++ q.Table ++ " (" ++ q.columns ++ ") VALUES (" ++ styledValues b q ++ ")"

/-- Styled variant of the InsertWithReturning loop. -/
def styledRetLoop (b : BindStyle) : List String → Nat → List String × List String
  | [], _ => ([], [])
  | name :: rest, pos =>
    if name ≠ idColumn then
      let (cs, vs) := styledRetLoop b rest (pos + 1)
      (name :: cs, renderBind b pos :: vs)
    else
      styledRetLoop b rest pos

/-- Styled variant of InsertWithReturning. -/
def styledInsertWithReturning (b : BindStyle) (q : QueryBuilder) : String :=
  let (columns, values) := styledRetLoop b q.Columns 1
  "INSERT INTO " ++ q.Table ++ " (" ++ join columns ++ ") VALUES (" ++ join values ++
    ") RETURNING id"

/-- Styled variant of the Update loop. -/
def styledUpdateLoop (b : BindStyle) : List String → Nat → List String × Nat
  | [], pos => ([], pos)
  | name :: rest, pos =>
    if name ≠ idColumn && name ≠ createdAtColumn then
      let (v, p) := styledUpdateLoop b rest (pos + 1)
      ((name ++ " = " ++ renderBind b pos) :: v, p)
    else
      styledUpdateLoop b rest pos

/-- Styled variant of Update. -/
def styledUpdate (b : BindStyle) (q : QueryBuilder) : String :=
  let (v, pos) := styledUpdateLoop b q.Columns 1
  "UPDATE " ++ q.Table ++ " SET " ++ join v ++ " WHERE id = " ++ renderBind b pos

/-- Styled variant of Delete. -/
def styledDelete (b : BindStyle) (q : QueryBuilder) : String :=
  "UPDATE " ++ q.Table ++ " SET deleted_at = " ++ renderBind b 1 ++ " WHERE id = " ++
    renderBind b 2

/-- Styled variant of HardDelete. -/
def styledHardDelete (b : BindStyle) (q : QueryBuilder) : String :=
  "DELETE FROM " ++ q.Table ++ " WHERE id = " ++ renderBind b 1

/-! ### Replacing dollar binds by question marks in statement text -/

/-- State of the dollar to question transformer: plain text, a pending dollar
sign whose classification is unknown, or a digit run being swallowed. -/
inductive DqState where
  | norm
  | pend
  | swall

/-- Replace every dollar sign followed by a digit run with a question mark. -/
def dqAux : DqState → List Char → List Char
  | .norm, [] => []
  | .pend, [] => ['$']
  | .swall, [] => []
  | .norm, c :: cs => if c = '$' then dqAux .pend cs else c :: dqAux .norm cs
  | .pend, c :: cs =>
    if c.isDigit then '?' :: dqAux .swall cs
    else if c = '$' then '$' :: dqAux .pend cs
    else '$' :: c :: dqAux .norm cs
  | .swall, c :: cs =>
    if c.isDigit then dqAux .swall cs
    else if c = '$' then dqAux .pend cs
    else c :: dqAux .norm cs

/-- Transformation replacing each dollar bind in statement text by a bare
question mark, the textual substitution the spec describes. -/
def dollarToQ (cs : List Char) : List Char := dqAux .norm cs

theorem dq_append_noDollar (a b : List Char) (ha : noDollar a) :
    dqAux .norm (a ++ b) = a ++ dqAux .norm b := by
  induction a with
  | nil => rfl
  | cons c a ih =>
    have hc : ¬(c = '$') := fun hc => ha (by simp [hc])
    rw [List.cons_append]
    rw [show dqAux .norm (c :: (a ++ b)) =
      if c = '$' then dqAux .pend (a ++ b) else c :: dqAux .norm (a ++ b) from rfl]
    rw [if_neg hc, ih (fun hmem => ha (by simp [hmem])), List.cons_append]

theorem dq_noDollar (a : List Char) (ha : noDollar a) : dqAux .norm a = a := by
  have h := dq_append_noDollar a [] ha
  rw [List.append_nil] at h
  rw [h, show dqAux .norm ([] : List Char) = [] from rfl, List.append_nil]

theorem dq_swall (ds : List Char) (b : List Char) (hb : headNonDigit b) :
    (∀ d ∈ ds, d.isDigit = true) → dqAux .swall (ds ++ b) = dqAux .norm b := by
  induction ds with
  | nil =>
    intro _
    cases b with
    | nil => rfl
    | cons c cs =>
      have hc : c.isDigit = false := hb
      rw [List.nil_append]
      rw [show dqAux .swall (c :: cs) =
        if c.isDigit then dqAux .swall cs
        else if c = '$' then dqAux .pend cs else c :: dqAux .norm cs from rfl]
      rw [show dqAux .norm (c :: cs) =
        if c = '$' then dqAux .pend cs else c :: dqAux .norm cs from rfl]
      simp [hc]
  | cons d ds ih =>
    intro hall
    have hd : d.isDigit = true := hall d (by simp)
    rw [List.cons_append]
    rw [show dqAux .swall (d :: (ds ++ b)) =
      if d.isDigit then dqAux .swall (ds ++ b)
      else if d = '$' then dqAux .pend (ds ++ b) else d :: dqAux .norm (ds ++ b) from rfl]
    rw [if_pos hd]
    exact ih (fun x hx => hall x (by simp [hx]))

theorem dq_bind_cons (k : Nat) (b : List Char) (hb : headNonDigit b) :
    dqAux .norm ('$' :: ((natToStr k).data ++ b)) = '?' :: dqAux .norm b := by
  rw [show dqAux .norm ('$' :: ((natToStr k).data ++ b)) =
    dqAux .pend ((natToStr k).data ++ b) from by simp [dqAux]]
  rcases hds : (natToStr k).data with _ | ⟨d, ds⟩
  · exact absurd hds (natToStr_data_ne_nil k)
  · have hd : d.isDigit = true := by
      have := natToStr_all_digits k
      rw [hds] at this
      exact this d (by simp)
    rw [List.cons_append]
    rw [show dqAux .pend (d :: (ds ++ b)) =
      if d.isDigit then '?' :: dqAux .swall (ds ++ b)
      else if d = '$' then '$' :: dqAux .pend (ds ++ b)
      else '$' :: d :: dqAux .norm (ds ++ b) from rfl]
    rw [if_pos hd]
    rw [dq_swall ds b hb (by
      intro x hx
      have := natToStr_all_digits k
      rw [hds] at this
      exact this x (by simp [hx]))]


/-! ### The dollar style renders exactly the source statements -/

theorem eq_dollar_piece (x : String) (p : Nat) :
    x ++ " = " ++ renderBind .positionalDollar p = x ++ " = $" ++ natToStr p := by
  apply String.ext
  simp [renderBind, string_data_append, List.append_assoc]

theorem eq_dollar_where (x : String) (p : Nat) :
    x ++ " WHERE id = " ++ renderBind .positionalDollar p =
      x ++ " WHERE id = $" ++ natToStr p := by
  apply String.ext
  simp [renderBind, string_data_append, List.append_assoc]

theorem styledValues_dollar (q : QueryBuilder) :
    styledValues .positionalDollar q = q.values := rfl

theorem styledSelect_dollar (q : QueryBuilder) :
    styledSelect .positionalDollar q = q.Select := by
  have hcore : ("SELECT " ++ q.columns ++ " FROM " ++ q.Table ++ " WHERE id = " ++
      renderBind .positionalDollar 1 : String) =
      "SELECT " ++ q.columns ++ " FROM " ++ q.Table ++ " WHERE id = $1" := by
    rw [string_append_assoc]
    rw [show (" WHERE id = " ++ renderBind BindStyle.positionalDollar 1 : String) =
      " WHERE id = $1" from by decide]
  cases hsd : q.SelectDeleted <;>
    simp [styledSelect, QueryBuilder.Select, hsd, hcore]

theorem styledExtras_dollar : ∀ (ns : List String) (i : Nat),
    styledExtras .positionalDollar ns i = selectByExtras ns i := by
  intro ns
  induction ns with
  | nil => intro i; rfl
  | cons n rest ih =>
    intro i
    show " AND " ++ n ++ " = " ++ renderBind .positionalDollar (i + 2) ++
        styledExtras .positionalDollar rest (i + 1) =
      " AND " ++ n ++ " = $" ++ natToStr (i + 2) ++ selectByExtras rest (i + 1)
    rw [ih (i + 1), eq_dollar_piece (" AND " ++ n) (i + 2)]

theorem styledSelectBy_dollar (q : QueryBuilder) (name : String)
    (extraNames : List String) :
    styledSelectBy .positionalDollar q name extraNames = q.SelectBy name extraNames := by
  have hcore : ("SELECT " ++ q.columns ++ " FROM " ++ q.Table ++ " WHERE " ++ name ++
      " = " ++ renderBind .positionalDollar 1 : String) =
      "SELECT " ++ q.columns ++ " FROM " ++ q.Table ++ " WHERE " ++ name ++ " = $1" := by
    rw [eq_dollar_piece _ 1, string_append_assoc]
    rw [show (" = $" ++ natToStr 1 : String) = " = $1" from by decide]
  cases hsd : q.SelectDeleted <;>
    simp [styledSelectBy, QueryBuilder.SelectBy, hsd, hcore, styledExtras_dollar]

theorem styledSelectAll_dollar (q : QueryBuilder) :
    styledSelectAll .positionalDollar q = q.SelectAll := rfl

theorem styledInsert_dollar (q : QueryBuilder) :
    styledInsert .positionalDollar q = q.Insert := rfl

theorem styledRetLoop_dollar : ∀ (cols : List String) (pos : Nat),
    styledRetLoop .positionalDollar cols pos = insertRetLoop cols pos := by
  intro cols
  induction cols with
  | nil => intro pos; rfl
  | cons n rest ih =>
    intro pos
    simp [styledRetLoop, insertRetLoop, renderBind, ih]

theorem styledInsertWithReturning_dollar (q : QueryBuilder) :
    styledInsertWithReturning .positionalDollar q = q.InsertWithReturning := by
  simp [styledInsertWithReturning, QueryBuilder.InsertWithReturning,
    styledRetLoop_dollar]

theorem styledUpdateLoop_eq (b : BindStyle) (cols : List String) (pos : Nat) :
    styledUpdateLoop b cols pos =
      (List.zipWith (fun i n => n ++ " = " ++ renderBind b i)
          (List.range' pos (updFilter cols).length) (updFilter cols),
        pos + (updFilter cols).length) := by
  induction cols generalizing pos with
  | nil => simp [styledUpdateLoop, updFilter]
  | cons name rest ih =>
    by_cases hb : (name ≠ idColumn && name ≠ createdAtColumn) = true
    · have hf : updFilter (name :: rest) = name :: updFilter rest := by
        simp only [updFilter, List.filter_cons, hb, if_true]
      rw [hf]
      simp only [styledUpdateLoop, hb, if_true, ih (pos + 1), List.length_cons,
        List.range'_succ, List.zipWith_cons_cons, Prod.mk.injEq]
      exact ⟨trivial, by omega⟩
    · have hb' : (name ≠ idColumn && name ≠ createdAtColumn) = false := by
        simpa using hb
      have hf : updFilter (name :: rest) = updFilter rest := by
        simp only [updFilter, List.filter_cons, hb', if_false, Bool.false_eq_true]
      rw [hf]
      simp only [styledUpdateLoop, hb', Bool.false_eq_true, if_false, ih pos]

theorem styledUpdate_shape (b : BindStyle) (q : QueryBuilder) :
    styledUpdate b q =
      "UPDATE " ++ q.Table ++ " SET " ++
        join (List.zipWith (fun i n => n ++ " = " ++ renderBind b i)
          (List.range' 1 (updFilter q.Columns).length) (updFilter q.Columns)) ++
      " WHERE id = " ++ renderBind b ((updFilter q.Columns).length + 1) := by
  unfold styledUpdate
  rw [styledUpdateLoop_eq]
  simp [Nat.add_comm]

theorem styledUpdate_dollar (q : QueryBuilder) :
    styledUpdate .positionalDollar q = q.Update := by
  rw [styledUpdate_shape, update_shape]
  simp only [eq_dollar_piece, eq_dollar_where]

theorem styledDelete_dollar (q : QueryBuilder) :
    styledDelete .positionalDollar q = q.Delete := by
  unfold styledDelete QueryBuilder.Delete
  apply String.ext
  repeat rw [string_data_append]
  repeat rw [List.append_assoc]
  congr 1

theorem styledHardDelete_dollar (q : QueryBuilder) :
    styledHardDelete .positionalDollar q = q.HardDelete := by
  unfold styledHardDelete QueryBuilder.HardDelete
  apply String.ext
  repeat rw [string_data_append]
  repeat rw [List.append_assoc]
  congr 1


/-! ### The transformer sends dollar renderings to question renderings -/

theorem dq_values (k : Nat) :
    ∀ (a : Nat) (tail : List Char), headNonDigit tail →
      dqAux .norm
          ((join ((List.range' a k).map (fun i => "$" ++ natToStr i))).data ++ tail) =
        (join ((List.range' a k).map (fun i => renderBind .positionalQuestion i))).data ++
          dqAux .norm tail := by
  induction k with
  | zero => intro a tail _; simp [join]
  | succ k ih =>
    intro a tail ht
    rw [List.range'_succ, List.map_cons, List.map_cons]
    rw [show renderBind BindStyle.positionalQuestion a = "?" from rfl]
    cases k with
    | zero =>
      rw [show ((List.range' (a + 1) 0).map (fun i => "$" ++ natToStr i)) =
        ([] : List String) from rfl]
      rw [show ((List.range' (a + 1) 0).map
        (fun i => renderBind .positionalQuestion i)) = ([] : List String) from rfl]
      rw [show join ["$" ++ natToStr a] = "$" ++ natToStr a from rfl]
      rw [show join ["?"] = "?" from rfl]
      rw [string_data_append, dollar_data, List.singleton_append, List.cons_append]
      rw [dq_bind_cons a tail ht]
      rw [show ("?" : String).data = ['?'] from rfl, List.singleton_append]
    | succ k' =>
      have hneL : (List.range' (a + 1) (k' + 1)).map (fun i => "$" ++ natToStr i) ≠ [] := by
        simp
      have hneR : (List.range' (a + 1) (k' + 1)).map
          (fun i => renderBind .positionalQuestion i) ≠ [] := by
        simp
      rw [join_cons_ne _ _ hneL, join_cons_ne _ _ hneR]
      have hdL : ((("$" ++ natToStr a) ++ ", ") ++
            join ((List.range' (a + 1) (k' + 1)).map (fun i => "$" ++ natToStr i))).data
            ++ tail =
          '$' :: ((natToStr a).data ++ ((", " : String).data ++
            ((join ((List.range' (a + 1) (k' + 1)).map
              (fun i => "$" ++ natToStr i))).data ++ tail))) := by
        simp [string_data_append, dollar_data, List.append_assoc]
      rw [hdL]
      rw [dq_bind_cons a _ (headNonDigit_commaSp _)]
      rw [dq_append_noDollar ((", " : String).data) _ (by decide)]
      rw [ih (a + 1) tail ht]
      have hdR : (("?" ++ ", ") ++
            join ((List.range' (a + 1) (k' + 1)).map
              (fun i => renderBind .positionalQuestion i))).data ++ dqAux .norm tail =
          '?' :: ((", " : String).data ++
            ((join ((List.range' (a + 1) (k' + 1)).map
              (fun i => renderBind .positionalQuestion i))).data ++ dqAux .norm tail)) := by
        simp [string_data_append, List.append_assoc]
      rw [hdR]

theorem dq_set (ns : List String) :
    ∀ (a : Nat) (tail : List Char), (∀ n ∈ ns, noDollar n.data) → headNonDigit tail →
      dqAux .norm
          ((join (List.zipWith (fun i n => n ++ " = $" ++ natToStr i)
            (List.range' a ns.length) ns)).data ++ tail) =
        (join (List.zipWith (fun i n => n ++ " = " ++ renderBind .positionalQuestion i)
          (List.range' a ns.length) ns)).data ++ dqAux .norm tail := by
  induction ns with
  | nil => intro a tail _ _; simp [join]
  | cons n ns ih =>
    intro a tail hnd ht
    have hsplit : ∀ (tl : List Char), ((n ++ " = $" ++ natToStr a) : String).data ++ tl =
        n.data ++ ((" = " : String).data ++ ('$' :: ((natToStr a).data ++ tl))) := by
      intro tl
      rw [show (" = $" : String) = " = " ++ "$" from rfl, ← string_append_assoc]
      simp [string_data_append, dollar_data, List.append_assoc]
    have hqpiece : ((n ++ " = " ++ renderBind .positionalQuestion a) : String).data =
        n.data ++ ((" = " : String).data ++ ['?']) := by
      rw [show renderBind BindStyle.positionalQuestion a = "?" from rfl]
      simp [string_data_append, List.append_assoc]
    rw [List.length_cons, List.range'_succ, List.zipWith_cons_cons,
      List.zipWith_cons_cons]
    cases ns with
    | nil =>
      rw [show List.zipWith (fun i n => n ++ " = $" ++ natToStr i)
        (List.range' (a + 1) ([] : List String).length) [] = [] from rfl]
      rw [show List.zipWith (fun i n => n ++ " = " ++ renderBind .positionalQuestion i)
        (List.range' (a + 1) ([] : List String).length) [] = [] from rfl]
      rw [show ∀ x : String, join [x] = x from fun x => rfl]
      rw [show ∀ x : String, join [x] = x from fun x => rfl]
      rw [hsplit tail]
      rw [dq_append_noDollar n.data _ (hnd n (by simp))]
      rw [dq_append_noDollar ((" = " : String).data) _ (by decide)]
      rw [dq_bind_cons a tail ht]
      rw [hqpiece]
      simp
    | cons m ms =>
      have hneL : List.zipWith (fun i n => n ++ " = $" ++ natToStr i)
          (List.range' (a + 1) (m :: ms).length) (m :: ms) ≠ [] := by
        rw [List.length_cons, List.range'_succ, List.zipWith_cons_cons]
        simp
      have hneR : List.zipWith (fun i n => n ++ " = " ++ renderBind .positionalQuestion i)
          (List.range' (a + 1) (m :: ms).length) (m :: ms) ≠ [] := by
        rw [List.length_cons, List.range'_succ, List.zipWith_cons_cons]
        simp
      rw [join_cons_ne _ _ hneL, join_cons_ne _ _ hneR]
      have hdL : (((n ++ " = $" ++ natToStr a) ++ ", ") ++
            join (List.zipWith (fun i n => n ++ " = $" ++ natToStr i)
              (List.range' (a + 1) (m :: ms).length) (m :: ms))).data ++ tail =
          ((n ++ " = $" ++ natToStr a) : String).data ++
            (((", " : String)).data ++
              ((join (List.zipWith (fun i n => n ++ " = $" ++ natToStr i)
                (List.range' (a + 1) (m :: ms).length) (m :: ms))).data ++ tail)) := by
        simp [string_data_append, List.append_assoc]
      rw [hdL, hsplit]
      rw [dq_append_noDollar n.data _ (hnd n (by simp))]
      rw [dq_append_noDollar ((" = " : String).data) _ (by decide)]
      rw [dq_bind_cons a _ (headNonDigit_commaSp _)]
      rw [dq_append_noDollar ((", " : String).data) _ (by decide)]
      rw [ih (a + 1) tail (fun x hx => hnd x (by simp [hx])) ht]
      have hdR : (((n ++ " = " ++ renderBind .positionalQuestion a) ++ ", ") ++
            join (List.zipWith (fun i n => n ++ " = " ++ renderBind .positionalQuestion i)
              (List.range' (a + 1) (m :: ms).length) (m :: ms))).data ++
            dqAux .norm tail =
          n.data ++ ((" = " : String).data ++ ('?' :: ((", " : String).data ++
            ((join (List.zipWith
              (fun i n => n ++ " = " ++ renderBind .positionalQuestion i)
              (List.range' (a + 1) (m :: ms).length) (m :: ms))).data ++
              dqAux .norm tail)))) := by
        rw [string_data_append, string_data_append, hqpiece]
        simp [List.append_assoc]
      rw [hdR]

theorem dq_extras (ns : List String) :
    ∀ (i : Nat) (tail : List Char), (∀ n ∈ ns, noDollar n.data) → headNonDigit tail →
      dqAux .norm ((selectByExtras ns i).data ++ tail) =
        (styledExtras .positionalQuestion ns i).data ++ dqAux .norm tail := by
  induction ns with
  | nil => intro i tail _ _; simp [selectByExtras, styledExtras]
  | cons n ns ih =>
    intro i tail hnd ht
    rw [show selectByExtras (n :: ns) i =
      (" AND " ++ n ++ " = $" ++ natToStr (i + 2)) ++ selectByExtras ns (i + 1) from rfl]
    rw [show styledExtras .positionalQuestion (n :: ns) i =
      (" AND " ++ n ++ " = " ++ renderBind .positionalQuestion (i + 2)) ++
        styledExtras .positionalQuestion ns (i + 1) from rfl]
    have hdL : ((" AND " ++ n ++ " = $" ++ natToStr (i + 2)) ++
          selectByExtras ns (i + 1)).data ++ tail =
        (" AND " : String).data ++ (n.data ++ ((" = " : String).data ++
          ('$' :: ((natToStr (i + 2)).data ++
            ((selectByExtras ns (i + 1)).data ++ tail))))) := by
      rw [show (" = $" : String) = " = " ++ "$" from rfl, ← string_append_assoc]
      simp [string_data_append, dollar_data, List.append_assoc]
    rw [hdL]
    rw [dq_append_noDollar ((" AND " : String).data) _ (by decide)]
    rw [dq_append_noDollar n.data _ (hnd n (by simp))]
    rw [dq_append_noDollar ((" = " : String).data) _ (by decide)]
    rw [dq_bind_cons (i + 2) _
      (headNonDigit_append (headNonDigit_extras ns (i + 1)) ht)]
    rw [ih (i + 1) tail (fun x hx => hnd x (by simp [hx])) ht]
    have hdR : ((" AND " ++ n ++ " = " ++ renderBind .positionalQuestion (i + 2)) ++
          styledExtras .positionalQuestion ns (i + 1)).data ++ dqAux .norm tail =
        (" AND " : String).data ++ (n.data ++ ((" = " : String).data ++
          ('?' :: ((styledExtras .positionalQuestion ns (i + 1)).data ++
            dqAux .norm tail)))) := by
      rw [show renderBind BindStyle.positionalQuestion (i + 2) = "?" from rfl]
      simp [string_data_append, List.append_assoc]
    rw [hdR]


theorem styledValues_eq_range (b : BindStyle) (q : QueryBuilder) :
    styledValues b q =
      join ((List.range' 1 q.Columns.length).map (fun i => renderBind b i)) := by
  unfold styledValues
  rw [List.range'_eq_map_range, List.map_map]
  congr 1
  apply List.map_congr_left
  intro i _
  simp [Nat.add_comm]

theorem styledRetLoop_eq (b : BindStyle) (cols : List String) (pos : Nat) :
    styledRetLoop b cols pos =
      (retFilter cols,
        (List.range' pos (retFilter cols).length).map (fun i => renderBind b i)) := by
  induction cols generalizing pos with
  | nil => simp [styledRetLoop, retFilter]
  | cons name rest ih =>
    by_cases hn : name = idColumn
    · have hf : retFilter (name :: rest) = retFilter rest := by
        simp [retFilter, List.filter_cons, hn]
      rw [hf]
      rw [show styledRetLoop b (name :: rest) pos = styledRetLoop b rest pos by
        simp [styledRetLoop, hn]]
      exact ih pos
    · have hf : retFilter (name :: rest) = name :: retFilter rest := by
        simp [retFilter, List.filter_cons, hn]
      rw [hf]
      rw [show styledRetLoop b (name :: rest) pos =
          (name :: (styledRetLoop b rest (pos + 1)).1,
            renderBind b pos :: (styledRetLoop b rest (pos + 1)).2) by
        simp [styledRetLoop, hn]]
      simp only [ih (pos + 1), List.length_cons, List.range'_succ, List.map_cons]

theorem styled_insert_returning_shape (b : BindStyle) (q : QueryBuilder) :
    styledInsertWithReturning b q =
      styledInsert b (QueryBuilder.mk q.Table (retFilter q.Columns) q.SelectDeleted) ++
        " RETURNING id" := by
  unfold styledInsertWithReturning styledInsert
  rw [styledRetLoop_eq]
  simp only [QueryBuilder.columns, styledValues_eq_range]
  rw [show (") RETURNING id" : String) = ")" ++ " RETURNING id" from rfl]
  simp [string_append_assoc]

/-! ### Per statement substitution lemmas -/

theorem dq_Select (q : QueryBuilder) (hT : noDollar q.Table.data)
    (hC : ∀ c ∈ q.Columns, noDollar c.data) :
    dollarToQ q.Select.data = (styledSelect .positionalQuestion q).data := by
  unfold dollarToQ
  cases hsd : q.SelectDeleted with
  | true =>
    rw [show q.Select = "SELECT " ++ q.columns ++ " FROM " ++ q.Table ++ " WHERE id = $1"
      from by simp [QueryBuilder.Select, hsd]]
    rw [show styledSelect .positionalQuestion q =
      "SELECT " ++ q.columns ++ " FROM " ++ q.Table ++ " WHERE id = " ++ "?"
      from by simp [styledSelect, hsd, renderBind]]
    rw [show QueryBuilder.columns q = join q.Columns from rfl]
    repeat rw [string_data_append]
    repeat rw [List.append_assoc]
    rw [show (" WHERE id = $1" : String).data =
      (" WHERE id = " : String).data ++ ('$' :: ((natToStr 1).data ++ [])) from by decide]
    rw [dq_append_noDollar ("SELECT " : String).data _ (by decide)]
    rw [dq_append_noDollar (join q.Columns).data _ (noDollar_join hC)]
    rw [dq_append_noDollar (" FROM " : String).data _ (by decide)]
    rw [dq_append_noDollar q.Table.data _ hT]
    rw [dq_append_noDollar (" WHERE id = " : String).data _ (by decide)]
    rw [dq_bind_cons 1 [] trivial]
    rfl
  | false =>
    rw [show q.Select = ("SELECT " ++ q.columns ++ " FROM " ++ q.Table ++
        " WHERE id = $1") ++ " AND deleted_at IS NULL"
      from by simp [QueryBuilder.Select, hsd]]
    rw [show styledSelect .positionalQuestion q =
      "SELECT " ++ q.columns ++ " FROM " ++ q.Table ++ " WHERE id = " ++ "?" ++
        " AND deleted_at IS NULL"
      from by simp [styledSelect, hsd, renderBind]]
    rw [show QueryBuilder.columns q = join q.Columns from rfl]
    repeat rw [string_data_append]
    repeat rw [List.append_assoc]
    rw [show (" WHERE id = $1" : String).data ++ (" AND deleted_at IS NULL" : String).data =
      (" WHERE id = " : String).data ++
        ('$' :: ((natToStr 1).data ++ (" AND deleted_at IS NULL" : String).data))
      from by decide]
    rw [dq_append_noDollar ("SELECT " : String).data _ (by decide)]
    rw [dq_append_noDollar (join q.Columns).data _ (noDollar_join hC)]
    rw [dq_append_noDollar (" FROM " : String).data _ (by decide)]
    rw [dq_append_noDollar q.Table.data _ hT]
    rw [dq_append_noDollar (" WHERE id = " : String).data _ (by decide)]
    rw [dq_bind_cons 1 _ (by decide)]
    rw [dq_noDollar ((" AND deleted_at IS NULL" : String).data) (by decide)]
    rfl

theorem dq_SelectBy (q : QueryBuilder) (hT : noDollar q.Table.data)
    (hC : ∀ c ∈ q.Columns, noDollar c.data) (name : String) (hn : noDollar name.data)
    (extras : List String) (he : ∀ e ∈ extras, noDollar e.data) :
    dollarToQ (q.SelectBy name extras).data =
      (styledSelectBy .positionalQuestion q name extras).data := by
  unfold dollarToQ
  cases hsd : q.SelectDeleted with
  | true =>
    rw [show q.SelectBy name extras =
        ("SELECT " ++ q.columns ++ " FROM " ++ q.Table ++ " WHERE " ++ name ++ " = $1")
          ++ selectByExtras extras 0
      from by simp [QueryBuilder.SelectBy, hsd]]
    rw [show styledSelectBy .positionalQuestion q name extras =
        ("SELECT " ++ q.columns ++ " FROM " ++ q.Table ++ " WHERE " ++ name ++ " = " ++
          "?") ++ styledExtras .positionalQuestion extras 0
      from by simp [styledSelectBy, hsd, renderBind]]
    rw [show QueryBuilder.columns q = join q.Columns from rfl]
    repeat rw [string_data_append]
    repeat rw [List.append_assoc]
    rw [show (" = $1" : String).data ++ (selectByExtras extras 0).data =
      (" = " : String).data ++
        ('$' :: ((natToStr 1).data ++ (selectByExtras extras 0).data)) from by
      rw [show (" = $1" : String).data =
        (" = " : String).data ++ ('$' :: (natToStr 1).data) from by decide]
      simp [List.append_assoc]]
    rw [dq_append_noDollar ("SELECT " : String).data _ (by decide)]
    rw [dq_append_noDollar (join q.Columns).data _ (noDollar_join hC)]
    rw [dq_append_noDollar (" FROM " : String).data _ (by decide)]
    rw [dq_append_noDollar q.Table.data _ hT]
    rw [dq_append_noDollar (" WHERE " : String).data _ (by decide)]
    rw [dq_append_noDollar name.data _ hn]
    rw [dq_append_noDollar (" = " : String).data _ (by decide)]
    rw [dq_bind_cons 1 _ (headNonDigit_extras extras 0)]
    rw [← List.append_nil (selectByExtras extras 0).data]
    rw [dq_extras extras 0 [] he trivial]
    rw [show dqAux .norm ([] : List Char) = [] from rfl]
    simp
  | false =>
    rw [show q.SelectBy name extras =
        (("SELECT " ++ q.columns ++ " FROM " ++ q.Table ++ " WHERE " ++ name ++ " = $1")
          ++ selectByExtras extras 0) ++ " AND deleted_at IS NULL"
      from by simp [QueryBuilder.SelectBy, hsd]]
    rw [show styledSelectBy .positionalQuestion q name extras =
        (("SELECT " ++ q.columns ++ " FROM " ++ q.Table ++ " WHERE " ++ name ++ " = " ++
          "?") ++ styledExtras .positionalQuestion extras 0) ++ " AND deleted_at IS NULL"
      from by simp [styledSelectBy, hsd, renderBind]]
    rw [show QueryBuilder.columns q = join q.Columns from rfl]
    repeat rw [string_data_append]
    repeat rw [List.append_assoc]
    rw [show (" = $1" : String).data ++ ((selectByExtras extras 0).data ++
        (" AND deleted_at IS NULL" : String).data) =
      (" = " : String).data ++
        ('$' :: ((natToStr 1).data ++ ((selectByExtras extras 0).data ++
          (" AND deleted_at IS NULL" : String).data))) from by
      rw [show (" = $1" : String).data =
        (" = " : String).data ++ ('$' :: (natToStr 1).data) from by decide]
      simp [List.append_assoc]]
    rw [dq_append_noDollar ("SELECT " : String).data _ (by decide)]
    rw [dq_append_noDollar (join q.Columns).data _ (noDollar_join hC)]
    rw [dq_append_noDollar (" FROM " : String).data _ (by decide)]
    rw [dq_append_noDollar q.Table.data _ hT]
    rw [dq_append_noDollar (" WHERE " : String).data _ (by decide)]
    rw [dq_append_noDollar name.data _ hn]
    rw [dq_append_noDollar (" = " : String).data _ (by decide)]
    rw [dq_bind_cons 1 _
      (headNonDigit_append (headNonDigit_extras extras 0) (by decide))]
    rw [dq_extras extras 0 (" AND deleted_at IS NULL" : String).data he (by decide)]
    rw [dq_noDollar ((" AND deleted_at IS NULL" : String).data) (by decide)]
    simp


theorem dq_Insert_tail (q : QueryBuilder) (hT : noDollar q.Table.data)
    (hC : ∀ c ∈ q.Columns, noDollar c.data) (tail : List Char)
    (_ht1 : headNonDigit tail) :
    dqAux .norm (q.Insert.data ++ tail) =
      (styledInsert .positionalQuestion q).data ++ dqAux .norm tail := by
  rw [show q.Insert = "INSERT INTO " ++ q.Table ++ " (" ++ q.columns ++ ") VALUES (" ++
      q.values ++ ")" from rfl]
  rw [show styledInsert .positionalQuestion q =
    "INSERT INTO " ++ q.Table ++ " (" ++ q.columns ++ ") VALUES (" ++
      styledValues .positionalQuestion q ++ ")" from rfl]
  rw [show QueryBuilder.columns q = join q.Columns from rfl]
  rw [values_eq_range, styledValues_eq_range]
  repeat rw [string_data_append]
  repeat rw [List.append_assoc]
  rw [dq_append_noDollar ("INSERT INTO " : String).data _ (by decide)]
  rw [dq_append_noDollar q.Table.data _ hT]
  rw [dq_append_noDollar (" (" : String).data _ (by decide)]
  rw [dq_append_noDollar (join q.Columns).data _ (noDollar_join hC)]
  rw [dq_append_noDollar (") VALUES (" : String).data _ (by decide)]
  have hb : headNonDigit ((")" : String).data ++ tail) := headNonDigit_cons (by decide) _
  rw [dq_values q.Columns.length 1 _ hb]
  rw [dq_append_noDollar ((")" : String).data) _ (by decide)]

theorem dq_Insert (q : QueryBuilder) (hT : noDollar q.Table.data)
    (hC : ∀ c ∈ q.Columns, noDollar c.data) :
    dollarToQ q.Insert.data = (styledInsert .positionalQuestion q).data := by
  unfold dollarToQ
  rw [← List.append_nil q.Insert.data]
  rw [dq_Insert_tail q hT hC [] trivial]
  rw [show dqAux .norm ([] : List Char) = [] from rfl]
  rw [List.append_nil]

theorem dq_InsertWithReturning (q : QueryBuilder) (hT : noDollar q.Table.data)
    (hC : ∀ c ∈ q.Columns, noDollar c.data) :
    dollarToQ q.InsertWithReturning.data =
      (styledInsertWithReturning .positionalQuestion q).data := by
  unfold dollarToQ
  rw [insert_returning_shape q, styled_insert_returning_shape .positionalQuestion q]
  rw [string_data_append, string_data_append]
  have hfc : ∀ c ∈ retFilter q.Columns, noDollar c.data :=
    fun c hc => hC c (List.mem_filter.mp hc).1
  rw [dq_Insert_tail (QueryBuilder.mk q.Table (retFilter q.Columns) q.SelectDeleted)
    hT hfc (" RETURNING id" : String).data (by decide)]
  rw [dq_noDollar ((" RETURNING id" : String).data) (by decide)]

theorem dq_Update (q : QueryBuilder) (hT : noDollar q.Table.data)
    (hC : ∀ c ∈ q.Columns, noDollar c.data) :
    dollarToQ q.Update.data = (styledUpdate .positionalQuestion q).data := by
  unfold dollarToQ
  rw [update_shape q, styledUpdate_shape .positionalQuestion q]
  rw [show renderBind BindStyle.positionalQuestion
    ((updFilter q.Columns).length + 1) = "?" from rfl]
  repeat rw [string_data_append]
  repeat rw [List.append_assoc]
  rw [show (" WHERE id = $" : String).data ++
      (natToStr ((updFilter q.Columns).length + 1)).data =
    (" WHERE id = " : String).data ++
      ('$' :: ((natToStr ((updFilter q.Columns).length + 1)).data ++ [])) from by
    rw [show (" WHERE id = $" : String).data =
      (" WHERE id = " : String).data ++ ['$'] from by decide]
    simp [List.append_assoc]]
  rw [dq_append_noDollar ("UPDATE " : String).data _ (by decide)]
  rw [dq_append_noDollar q.Table.data _ hT]
  rw [dq_append_noDollar (" SET " : String).data _ (by decide)]
  have hfc : ∀ c ∈ updFilter q.Columns, noDollar c.data :=
    fun c hc => hC c (List.mem_filter.mp hc).1
  have hb : headNonDigit ((" WHERE id = " : String).data ++
      ('$' :: ((natToStr ((updFilter q.Columns).length + 1)).data ++ []))) :=
    headNonDigit_cons (by decide) _
  rw [dq_set (updFilter q.Columns) 1 _ hfc hb]
  rw [dq_append_noDollar ((" WHERE id = " : String).data) _ (by decide)]
  rw [dq_bind_cons _ [] trivial]
  rfl

theorem dq_Delete (q : QueryBuilder) (hT : noDollar q.Table.data) :
    dollarToQ q.Delete.data = (styledDelete .positionalQuestion q).data := by
  unfold dollarToQ
  rw [show q.Delete = "UPDATE " ++ q.Table ++ " SET deleted_at = $1 WHERE id = $2"
    from rfl]
  rw [show styledDelete .positionalQuestion q =
    "UPDATE " ++ q.Table ++ " SET deleted_at = " ++ "?" ++ " WHERE id = " ++ "?"
    from rfl]
  repeat rw [string_data_append]
  repeat rw [List.append_assoc]
  rw [show (" SET deleted_at = $1 WHERE id = $2" : String).data =
    (" SET deleted_at = " : String).data ++
      ('$' :: ((natToStr 1).data ++ ((" WHERE id = " : String).data ++
        ('$' :: ((natToStr 2).data ++ []))))) from by decide]
  rw [dq_append_noDollar ("UPDATE " : String).data _ (by decide)]
  rw [dq_append_noDollar q.Table.data _ hT]
  rw [dq_append_noDollar ((" SET deleted_at = " : String).data) _ (by decide)]
  have hb : headNonDigit ((" WHERE id = " : String).data ++
      ('$' :: ((natToStr 2).data ++ []))) := headNonDigit_cons (by decide) _
  rw [dq_bind_cons 1 _ hb]
  rw [dq_append_noDollar ((" WHERE id = " : String).data) _ (by decide)]
  rw [dq_bind_cons 2 [] trivial]
  rfl

theorem dq_HardDelete (q : QueryBuilder) (hT : noDollar q.Table.data) :
    dollarToQ q.HardDelete.data = (styledHardDelete .positionalQuestion q).data := by
  unfold dollarToQ
  rw [show q.HardDelete = "DELETE FROM " ++ q.Table ++ " WHERE id = $1" from rfl]
  rw [show styledHardDelete .positionalQuestion q =
    "DELETE FROM " ++ q.Table ++ " WHERE id = " ++ "?" from rfl]
  repeat rw [string_data_append]
  repeat rw [List.append_assoc]
  rw [show (" WHERE id = $1" : String).data =
    (" WHERE id = " : String).data ++ ('$' :: ((natToStr 1).data ++ [])) from by decide]
  rw [dq_append_noDollar ("DELETE FROM " : String).data _ (by decide)]
  rw [dq_append_noDollar q.Table.data _ hT]
  rw [dq_append_noDollar ((" WHERE id = " : String).data) _ (by decide)]
  rw [dq_bind_cons 1 [] trivial]
  rfl

theorem dq_SelectAll (q : QueryBuilder) (hT : noDollar q.Table.data)
    (hC : ∀ c ∈ q.Columns, noDollar c.data) :
    dollarToQ q.SelectAll.data = (styledSelectAll .positionalQuestion q).data := by
  unfold dollarToQ styledSelectAll
  apply dq_noDollar
  cases hsd : q.SelectDeleted with
  | true =>
    rw [show q.SelectAll = "SELECT " ++ q.columns ++ " FROM " ++ q.Table
      from by simp [QueryBuilder.SelectAll, hsd]]
    exact noDollar_str_append (noDollar_str_append (noDollar_str_append (by decide)
      (noDollar_join hC)) (by decide)) hT
  | false =>
    rw [show q.SelectAll = "SELECT " ++ q.columns ++ " FROM " ++ q.Table ++
        " WHERE deleted_at IS NULL"
      from by simp [QueryBuilder.SelectAll, hsd]]
    exact noDollar_str_append (noDollar_str_append (noDollar_str_append
      (noDollar_str_append (by decide) (noDollar_join hC)) (by decide)) hT) (by decide)


/-- C8: for every table descriptor and statement shape, bind style
substitution is the only difference between the POSITIONAL_DOLLAR and
POSITIONAL_QUESTION renderings: the dollar style renders exactly the source
statements with position i as a dollar sign plus decimal i, the question
style renders every position as a bare question mark, and replacing each
dollar bind by a question mark turns the dollar rendering into the question
rendering. -/
theorem bind_style_substitution (q : QueryBuilder) (hT : noDollar q.Table.data)
    (hC : ∀ c ∈ q.Columns, noDollar c.data) :
    (styledSelect .positionalDollar q = q.Select ∧
     (∀ (name : String) (extras : List String),
       styledSelectBy .positionalDollar q name extras = q.SelectBy name extras) ∧
     styledSelectAll .positionalDollar q = q.SelectAll ∧
     styledInsert .positionalDollar q = q.Insert ∧
     styledInsertWithReturning .positionalDollar q = q.InsertWithReturning ∧
     styledUpdate .positionalDollar q = q.Update ∧
     styledDelete .positionalDollar q = q.Delete ∧
     styledHardDelete .positionalDollar q = q.HardDelete) ∧
    (dollarToQ (styledSelect .positionalDollar q).data =
        (styledSelect .positionalQuestion q).data ∧
     (∀ (name : String) (extras : List String), noDollar name.data →
       (∀ e ∈ extras, noDollar e.data) →
       dollarToQ (styledSelectBy .positionalDollar q name extras).data =
         (styledSelectBy .positionalQuestion q name extras).data) ∧
     dollarToQ (styledSelectAll .positionalDollar q).data =
        (styledSelectAll .positionalQuestion q).data ∧
     dollarToQ (styledInsert .positionalDollar q).data =
        (styledInsert .positionalQuestion q).data ∧
     dollarToQ (styledInsertWithReturning .positionalDollar q).data =
        (styledInsertWithReturning .positionalQuestion q).data ∧
     dollarToQ (styledUpdate .positionalDollar q).data =
        (styledUpdate .positionalQuestion q).data ∧
     dollarToQ (styledDelete .positionalDollar q).data =
        (styledDelete .positionalQuestion q).data ∧
     dollarToQ (styledHardDelete .positionalDollar q).data =
        (styledHardDelete .positionalQuestion q).data) ∧
    (∀ i : Nat, renderBind .positionalDollar i = "$" ++ natToStr i ∧
      renderBind .positionalQuestion i = "?") := by
  refine ⟨⟨styledSelect_dollar q, fun name extras => styledSelectBy_dollar q name extras,
    styledSelectAll_dollar q, styledInsert_dollar q,
    styledInsertWithReturning_dollar q, styledUpdate_dollar q, styledDelete_dollar q,
    styledHardDelete_dollar q⟩, ⟨?_, ?_, ?_, ?_, ?_, ?_, ?_, ?_⟩,
    fun i => ⟨rfl, rfl⟩⟩
  · rw [styledSelect_dollar q]
    exact dq_Select q hT hC
  · intro name extras hn he
    rw [styledSelectBy_dollar q name extras]
    exact dq_SelectBy q hT hC name hn extras he
  · rw [styledSelectAll_dollar q]
    exact dq_SelectAll q hT hC
  · rw [styledInsert_dollar q]
    exact dq_Insert q hT hC
  · rw [styledInsertWithReturning_dollar q]
    exact dq_InsertWithReturning q hT hC
  · rw [styledUpdate_dollar q]
    exact dq_Update q hT hC
  · rw [styledDelete_dollar q]
    exact dq_Delete q hT
  · rw [styledHardDelete_dollar q]
    exact dq_HardDelete q hT

/-- Witness for the bind style substitution theorem at the users builder. -/
theorem bind_style_substitution_witness :
    styledUpdate .positionalDollar
        (QueryBuilder.mk "users" ["id", "name", "email", "created_at", "deleted_at"]
          false) =
      (QueryBuilder.mk "users" ["id", "name", "email", "created_at", "deleted_at"]
          false).Update ∧
    dollarToQ (styledUpdate .positionalDollar
        (QueryBuilder.mk "users" ["id", "name", "email", "created_at", "deleted_at"]
          false)).data =
      (styledUpdate .positionalQuestion
        (QueryBuilder.mk "users" ["id", "name", "email", "created_at", "deleted_at"]
          false)).data := by
  have h := bind_style_substitution (QueryBuilder.mk "users"
    ["id", "name", "email", "created_at", "deleted_at"] false) (by decide) (by decide)
  exact ⟨h.1.2.2.2.2.2.1, h.2.1.2.2.2.2.2.1⟩


/-! ### The schema resolver, translated from the tag walking source -/

mutual
/-- A structure field: its tag map and the shape of its type. -/
inductive GoField where
  | mk (tags : List (String × String)) (sub : GoSub)
/-- Shape of a field type: not a structure, pointer to a non structure,
a structure, or a pointer to a structure. -/
inductive GoSub where
  | leaf
  | ptrOther
  | strukt (fields : GoFields)
  | ptrStruct (fields : GoFields)
/-- A list of structure fields in declaration order. -/
inductive GoFields where
  | nil
  | cons (f : GoField) (fs : GoFields)
end

def GoField.tags : GoField → List (String × String)
  | .mk t _ => t

def GoField.sub : GoField → GoSub
  | .mk _ s => s

/-- A named structure definition. -/
structure GoStruct where
  name : String
  fields : GoFields

/-- Go struct tag lookup: the value under the first entry holding the key,
empty when absent. -/
def tagGet (key : String) : List (String × String) → String
  | [] => ""
  | (k, v) :: tags => if k = key then v else tagGet key tags

/-- getTagValue of the primary key resolver variant: a dash value counts as
no tag. -/
def getTagValue (key : String) (f : GoField) : String :=
  let s := tagGet key f.tags
  if s = "-" then "" else s

/-- Lowercase every character of a string. -/
def strToLower (s : String) : String :=
  ⟨s.data.map Char.toLower⟩

/-- isPrimaryKey: case insensitive comparison against primaryKey and pkey,
as strings.EqualFold behaves on ASCII. -/
def isPrimaryKey (s : String) : Bool :=
  strToLower s = "primarykey" || strToLower s = "pkey"

/-- Whitespace as Go strings.TrimSpace removes it, for ASCII text. -/
def isSpace (c : Char) : Bool :=
  c = ' ' || c = '\t' || c = '\n' || c = '\r'

/-- Drop whitespace from both ends of a character list. -/
def trimList (cs : List Char) : List Char :=
  ((cs.dropWhile isSpace).reverse.dropWhile isSpace).reverse

/-- Go strings.TrimSpace on ASCII text. -/
def goTrimSpace (s : String) : String := ⟨trimList s.data⟩

/-- Split at the first comma, as strings.SplitN with limit two: none when the
text holds no comma. -/
def splitCommaList : List Char → Option (List Char × List Char)
  | [] => none
  | c :: cs =>
    if c = ',' then some ([], cs)
    else
      match splitCommaList cs with
      | none => none
      | some (a, b) => some (c :: a, b)

def splitComma2 (s : String) : Option (String × String) :=
  match splitCommaList s.data with
  | none => none
  | some (a, b) => some (⟨a⟩, ⟨b⟩)

/-- The resolved table of the resolver: name, columns, primary key. -/
structure Table where
  Name : String := ""
  Columns : List String := []
  PrimaryKey : String := ""
deriving Repr, DecidableEq

/-- Resolution errors: the not a structure failure of structOf, and the
multiple primary key failure of addColumn and addColumnsFromTable, which the
spec names AmbiguousPrimaryKeyError. -/
inductive QBErr where
  | notAStructure
  | ambiguousPrimaryKey
deriving Repr, DecidableEq

/-- addColumn: register a tag value as a column, handling a primary key
marker after a comma. -/
def Table.addColumn (t : Table) (name : String) : Except QBErr Table :=
  match splitComma2 name with
  | some (p0, p1) =>
    if isPrimaryKey p1 then
      if t.PrimaryKey ≠ "" && t.PrimaryKey ≠ p0 then
        .error .ambiguousPrimaryKey
      else
        let n := goTrimSpace p0
        .ok { t with Columns := t.Columns ++ [n], PrimaryKey := n }
    else
      .ok { t with Columns := t.Columns ++ [goTrimSpace name] }
  | none => .ok { t with Columns := t.Columns ++ [goTrimSpace name] }

/-- addColumnsFromTable: merge a nested resolution into the running table. -/
def Table.addColumnsFromTable (t rt : Table) : Except QBErr Table :=
  if rt.PrimaryKey ≠ "" then
    if t.PrimaryKey ≠ "" && t.PrimaryKey ≠ rt.PrimaryKey then
      .error .ambiguousPrimaryKey
    else
      .ok { t with PrimaryKey := rt.PrimaryKey, Columns := t.Columns ++ rt.Columns }
  else
    .ok { t with Columns := t.Columns ++ rt.Columns }

/-- Options of the resolver with its three configuration knobs. -/
structure Options where
  tableName : String
  tableTag : String
  columnTag : String
deriving Repr, DecidableEq

def defaultOptions : Options :=
  { tableName := "", tableTag := "dbtable", columnTag := "db" }

/-- TableName sets the table name to use. -/
def TableName (name : String) : Options → Options :=
  fun o => if name ≠ "" then { o with tableName := name } else o

/-- TableTag sets the tag key used to get the table name. -/
def TableTag (key : String) : Options → Options :=
  fun o => if key ≠ "" then { o with tableTag := key } else o

/-- WithColumnTag sets the tag key used to get a column name. -/
def WithColumnTag (key : String) : Options → Options :=
  fun o => if key ≠ "" then { o with columnTag := key } else o

mutual
/-- fieldColumns: resolve the columns contributed by the type of one field,
empty unless the field type is a structure or a pointer to one. -/
def fieldColumns (o : Options) : GoField → Except QBErr Table
  | .mk _ .leaf => .ok {}
  | .mk _ .ptrOther => .ok {}
  | .mk _ (.strukt fs) => walkFields o fs {}
  | .mk _ (.ptrStruct fs) => walkFields o fs {}

/-- The field loop shared by fieldColumns and getTable: nested columns first,
then the own column tag of the field. -/
def walkFields (o : Options) : GoFields → Table → Except QBErr Table
  | .nil, t => .ok t
  | .cons f fs, t =>
    match fieldColumns o f with
    | .error e => .error e
    | .ok rt =>
      match t.addColumnsFromTable rt with
      | .error e => .error e
      | .ok t =>
        let name := getTagValue o.columnTag f
        if name ≠ "" then
          match t.addColumn name with
          | .error e => .error e
          | .ok t => walkFields o fs t
        else
          walkFields o fs t
end

/-- The table name adoption step at the head of the getTable loop body. -/
def adoptName (o : Options) (f : GoField) (t : Table) : Table :=
  if t.Name = "" then
    let name := getTagValue o.tableTag f
    if name ≠ "" then { t with Name := name } else t
  else t

/-- The top level loop of getTable: the walk of walkFields plus adoption of
the first table name tag. -/
def getTableLoop (o : Options) : GoFields → Table → Except QBErr Table
  | .nil, t => .ok t
  | .cons f fs, t =>
    let t := adoptName o f t
    match fieldColumns o f with
    | .error e => .error e
    | .ok rt =>
      match t.addColumnsFromTable rt with
      | .error e => .error e
      | .ok t =>
        let name := getTagValue o.columnTag f
        if name ≠ "" then
          match t.addColumn name with
          | .error e => .error e
          | .ok t => getTableLoop o fs t
        else
          getTableLoop o fs t

/-- One step of the snake case derivation. -/
def camelChar (c : Char) : List Char :=
  if c.isUpper then ['_', c.toLower] else [c.toLower]

/-- getTableName: derive a table name from a type name by inserting an
underscore before each uppercase rune except the first and lowercasing. -/
def getTableName (s : String) : String :=
  match s.data with
  | [] => ""
  | c :: cs => ⟨c.toLower :: cs.flatMap camelChar⟩

/-- getTable on a structure definition. -/
def getTable (o : Options) (s : GoStruct) : Except QBErr Table :=
  match getTableLoop o s.fields { Name := o.tableName } with
  | .error e => .error e
  | .ok t => .ok (if t.Name = "" then { t with Name := getTableName s.name } else t)

/-- An input value of New, as reflect.ValueOf classifies it. -/
inductive GoValue where
  | strukt (s : GoStruct)
  | ptrStruct (s : GoStruct)
  | iface (s : GoStruct)
  | nilPtr
  | prim

/-- structOf: accept a structure or a non nil pointer or interface holding
one, reject everything else. -/
def structOf : GoValue → Except QBErr GoStruct
  | .strukt s => .ok s
  | .ptrStruct s => .ok s
  | .iface s => .ok s
  | .nilPtr => .error .notAStructure
  | .prim => .error .notAStructure

/-- getTable on an arbitrary input value. -/
def getTableV (o : Options) (i : GoValue) : Except QBErr Table :=
  match structOf i with
  | .error e => .error e
  | .ok s => getTable o s

/-- New builds a query builder from a value and options. -/
def New (i : GoValue) (opts : List (Options → Options)) : Except QBErr QueryBuilder :=
  let o := opts.foldl (fun o fn => fn o) defaultOptions
  match getTableV o i with
  | .error e => .error e
  | .ok t => .ok (NewQueryBuilder t.Name t.Columns)


/-! ### Idempotence of trimming -/

theorem head?_dropWhile_not (p : Char → Bool) (l : List Char) :
    ∀ c, (l.dropWhile p).head? = some c → p c = false := by
  induction l with
  | nil => intro c hc; simp at hc
  | cons a l ih =>
    intro c hc
    rw [List.dropWhile_cons] at hc
    by_cases hp : p a = true
    · rw [if_pos hp] at hc
      exact ih c hc
    · rw [if_neg hp] at hc
      simp at hc
      subst hc
      simpa using hp

theorem dropWhile_eq_self_of_head (p : Char → Bool) (l : List Char)
    (h : ∀ c, l.head? = some c → p c = false) : l.dropWhile p = l := by
  cases l with
  | nil => rfl
  | cons a l =>
    rw [List.dropWhile_cons, if_neg]
    simp [h a rfl]

theorem getLast?_dropWhile (p : Char → Bool) (l : List Char)
    (h : l.dropWhile p ≠ []) : (l.dropWhile p).getLast? = l.getLast? := by
  obtain ⟨pre, hpre⟩ := @List.dropWhile_suffix Char l p
  have hl : l.getLast? = (pre ++ l.dropWhile p).getLast? := by rw [hpre]
  rw [hl, List.getLast?_append]
  cases hx : (l.dropWhile p).getLast? with
  | none =>
    rw [List.getLast?_eq_none_iff] at hx
    exact absurd hx h
  | some x => simp [hx, Option.or]

theorem trimList_idem (cs : List Char) : trimList (trimList cs) = trimList cs := by
  unfold trimList
  set A := cs.dropWhile isSpace with hA
  set B := A.reverse.dropWhile isSpace with hB
  by_cases hBnil : B = []
  · simp [hBnil]
  · have h1 : B.reverse.dropWhile isSpace = B.reverse := by
      apply dropWhile_eq_self_of_head
      intro c hc
      rw [List.head?_reverse] at hc
      rw [hB, getLast?_dropWhile _ _ (hB ▸ hBnil)] at hc
      rw [List.getLast?_reverse] at hc
      rw [hA] at hc
      exact head?_dropWhile_not isSpace cs c hc
    rw [h1, List.reverse_reverse]
    have h2 : B.dropWhile isSpace = B := by
      apply dropWhile_eq_self_of_head
      intro c hc
      rw [hB] at hc
      exact head?_dropWhile_not isSpace A.reverse c hc
    rw [h2]

/-- A string already free of surrounding whitespace. -/
def Trimmed (s : String) : Prop := goTrimSpace s = s

theorem goTrimSpace_idem (s : String) :
    goTrimSpace (goTrimSpace s) = goTrimSpace s :=
  congrArg String.mk (trimList_idem s.data)

theorem trimmed_goTrimSpace (s : String) : Trimmed (goTrimSpace s) :=
  goTrimSpace_idem s

theorem trimmed_empty : Trimmed "" := rfl


/-! ### Primary key declarations of a structure -/

/-- The raw pre comma text of a tag value that declares a primary key. -/
def pkRaw (name : String) : Option String :=
  match splitComma2 name with
  | some (p0, p1) => if isPrimaryKey p1 then some p0 else none
  | none => none

/-- The primary key declaration carried by the own column tag of a field. -/
def pkDeclOf (o : Options) (f : GoField) : List String :=
  let s := getTagValue o.columnTag f
  if s ≠ "" then (pkRaw s).toList else []

mutual
/-- Primary key declarations inside the type of a field. -/
def subDecls (o : Options) : GoField → List String
  | .mk _ .leaf => []
  | .mk _ .ptrOther => []
  | .mk _ (.strukt fs) => fieldsDecls o fs
  | .mk _ (.ptrStruct fs) => fieldsDecls o fs

/-- Primary key declarations of a field list, in the order the walk meets
them: nested declarations first, then the own tag of each field. -/
def fieldsDecls (o : Options) : GoFields → List String
  | .nil => []
  | .cons f fs => subDecls o f ++ pkDeclOf o f ++ fieldsDecls o fs
end

/-! ### Behaviour of the two table operations -/

theorem addColumnsFromTable_err (t rt : Table) (e : QBErr)
    (h : t.addColumnsFromTable rt = .error e) : e = .ambiguousPrimaryKey := by
  unfold Table.addColumnsFromTable at h
  split at h
  · split at h
    · injection h with h2
      exact h2.symm
    · exact absurd h (by simp)
  · exact absurd h (by simp)

theorem addColumn_err (t : Table) (name : String) (e : QBErr)
    (h : t.addColumn name = .error e) : e = .ambiguousPrimaryKey := by
  unfold Table.addColumn at h
  split at h
  · split at h
    · split at h
      · injection h with h2
        exact h2.symm
      · exact absurd h (by simp)
    · exact absurd h (by simp)
  · exact absurd h (by simp)

theorem addColumnsFromTable_pk (t rt t' : Table)
    (h : t.addColumnsFromTable rt = .ok t') :
    t'.Name = t.Name ∧ t'.Columns = t.Columns ++ rt.Columns ∧
    ((t'.PrimaryKey = t.PrimaryKey ∧ rt.PrimaryKey = "") ∨
     (t'.PrimaryKey = rt.PrimaryKey ∧ rt.PrimaryKey ≠ "" ∧
       (t.PrimaryKey = "" ∨ t.PrimaryKey = rt.PrimaryKey))) := by
  unfold Table.addColumnsFromTable at h
  split at h
  · next hne =>
    split at h
    · exact absurd h (by simp)
    · next hcond =>
      injection h with h2
      subst h2
      refine ⟨rfl, rfl, Or.inr ⟨rfl, hne, ?_⟩⟩
      by_cases hp : t.PrimaryKey = ""
      · exact Or.inl hp
      · right
        by_contra hne2
        exact hcond (by simp [hp, hne2])
  · next heq =>
    injection h with h2
    subst h2
    simp at heq
    exact ⟨rfl, rfl, Or.inl ⟨rfl, heq⟩⟩

theorem addColumn_pk (t : Table) (name : String) (t' : Table)
    (h : t.addColumn name = .ok t') :
    t'.Name = t.Name ∧
    ((t'.PrimaryKey = t.PrimaryKey ∧ pkRaw name = none) ∨
     (∃ p0, pkRaw name = some p0 ∧ (t.PrimaryKey = "" ∨ t.PrimaryKey = p0) ∧
       t'.PrimaryKey = goTrimSpace p0)) := by
  unfold Table.addColumn at h
  unfold pkRaw
  split at h
  · next p0 p1 hsplit =>
    split at h
    · next hpk =>
      rw [if_pos hpk]
      split at h
      · exact absurd h (by simp)
      · next hcond =>
        injection h with h2
        subst h2
        refine ⟨rfl, Or.inr ⟨p0, rfl, ?_, rfl⟩⟩
        by_cases hp : t.PrimaryKey = ""
        · exact Or.inl hp
        · right
          by_contra hne2
          exact hcond (by simp [hp, hne2])
    · next hpk =>
      rw [if_neg hpk]
      injection h with h2
      subst h2
      exact ⟨rfl, Or.inl ⟨rfl, rfl⟩⟩
  · next hsplit =>
    injection h with h2
    subst h2
    exact ⟨rfl, Or.inl ⟨rfl, rfl⟩⟩

/-! ### Every resolution error is the ambiguous primary key error -/

mutual
theorem fieldColumns_err (o : Options) :
    ∀ (f : GoField) (e : QBErr), fieldColumns o f = .error e →
      e = .ambiguousPrimaryKey
  | .mk tags .leaf, e, h => by simp [fieldColumns] at h
  | .mk tags .ptrOther, e, h => by simp [fieldColumns] at h
  | .mk tags (.strukt fs), e, h =>
    walkFields_err o fs {} e (by simpa [fieldColumns] using h)
  | .mk tags (.ptrStruct fs), e, h =>
    walkFields_err o fs {} e (by simpa [fieldColumns] using h)

theorem walkFields_err (o : Options) :
    ∀ (fs : GoFields) (t : Table) (e : QBErr), walkFields o fs t = .error e →
      e = .ambiguousPrimaryKey
  | .nil, t, e, h => by simp [walkFields] at h
  | .cons f fs, t, e, h => by
    unfold walkFields at h
    split at h
    · next e1 heq =>
      injection h with h2
      subst h2
      exact fieldColumns_err o f e1 heq
    · next rt heq1 =>
      split at h
      · next e2 heq2 =>
        injection h with h2
        subst h2
        exact addColumnsFromTable_err t rt e2 heq2
      · next t1 heq2 =>
        dsimp only [] at h
        by_cases hname : (getTagValue o.columnTag f ≠ "")
        · rw [if_pos hname] at h
          split at h
          · next e3 heq3 =>
            injection h with h2
            subst h2
            exact addColumn_err t1 (getTagValue o.columnTag f) e3 heq3
          · next t2 heq3 =>
            exact walkFields_err o fs t2 e h
        · rw [if_neg hname] at h
          exact walkFields_err o fs t1 e h
end


/-! ### Pinning: after a successful walk every non empty trimmed declaration
equals the resulting primary key -/

mutual
theorem fieldColumns_pin (o : Options) :
    ∀ (f : GoField) (rt : Table), fieldColumns o f = .ok rt →
      Trimmed rt.PrimaryKey ∧
      (∀ p ∈ subDecls o f, goTrimSpace p ≠ "" → goTrimSpace p = rt.PrimaryKey)
  | .mk tags .leaf, rt, h => by
    simp only [fieldColumns] at h
    injection h with h2
    subst h2
    exact ⟨trimmed_empty, by intro p hp; simp [subDecls] at hp⟩
  | .mk tags .ptrOther, rt, h => by
    simp only [fieldColumns] at h
    injection h with h2
    subst h2
    exact ⟨trimmed_empty, by intro p hp; simp [subDecls] at hp⟩
  | .mk tags (.strukt fs), rt, h => by
    simp only [fieldColumns] at h
    have W := walkFields_pin o fs {} rt h trimmed_empty
    refine ⟨W.1, ?_⟩
    intro p hp hne
    simp only [subDecls] at hp
    exact W.2.2 p hp hne
  | .mk tags (.ptrStruct fs), rt, h => by
    simp only [fieldColumns] at h
    have W := walkFields_pin o fs {} rt h trimmed_empty
    refine ⟨W.1, ?_⟩
    intro p hp hne
    simp only [subDecls] at hp
    exact W.2.2 p hp hne

theorem walkFields_pin (o : Options) :
    ∀ (fs : GoFields) (t t' : Table), walkFields o fs t = .ok t' →
      Trimmed t.PrimaryKey →
      Trimmed t'.PrimaryKey ∧
      (t.PrimaryKey ≠ "" → t'.PrimaryKey = t.PrimaryKey) ∧
      (∀ p ∈ fieldsDecls o fs, goTrimSpace p ≠ "" → goTrimSpace p = t'.PrimaryKey)
  | .nil, t, t', h, ht => by
    simp only [walkFields] at h
    injection h with h2
    subst h2
    exact ⟨ht, fun _ => rfl, by intro p hp; simp [fieldsDecls] at hp⟩
  | .cons f fs, t, t', h, ht => by
    unfold walkFields at h
    split at h
    · exact absurd h (by simp)
    · next rt heq1 =>
      split at h
      · exact absurd h (by simp)
      · next t1 heq2 =>
        have FC := fieldColumns_pin o f rt heq1
        have ACF := addColumnsFromTable_pk t rt t1 heq2
        have ht1 : Trimmed t1.PrimaryKey := by
          rcases ACF.2.2 with ⟨hp, _⟩ | ⟨hp, _, _⟩
          · rw [hp]; exact ht
          · rw [hp]; exact FC.1
        have hb1 : t.PrimaryKey ≠ "" → t1.PrimaryKey = t.PrimaryKey := by
          intro hne
          rcases ACF.2.2 with ⟨hp, _⟩ | ⟨hp, _, hd⟩
          · exact hp
          · rcases hd with hd | hd
            · exact absurd hd hne
            · rw [hp, ← hd]
        have hsub : ∀ p ∈ subDecls o f, goTrimSpace p ≠ "" →
            goTrimSpace p = t1.PrimaryKey := by
          intro p hp hne
          have hpin := FC.2 p hp hne
          rcases ACF.2.2 with ⟨_, hrt⟩ | ⟨hpk, _, _⟩
          · rw [hrt] at hpin
            exact absurd hpin hne
          · rw [hpk]
            exact hpin
        dsimp only [] at h
        by_cases hname : (getTagValue o.columnTag f ≠ "")
        · rw [if_pos hname] at h
          split at h
          · exact absurd h (by simp)
          · next t2 heq3 =>
            have AC := addColumn_pk t1 (getTagValue o.columnTag f) t2 heq3
            have ht2 : Trimmed t2.PrimaryKey := by
              rcases AC.2 with ⟨hp, _⟩ | ⟨p0, _, _, hp⟩
              · rw [hp]; exact ht1
              · rw [hp]; exact trimmed_goTrimSpace p0
            have hb2 : t1.PrimaryKey ≠ "" → t2.PrimaryKey = t1.PrimaryKey := by
              intro hne
              rcases AC.2 with ⟨hp, _⟩ | ⟨p0, _, hd, hp⟩
              · exact hp
              · rcases hd with hd | hd
                · exact absurd hd hne
                · rw [hp, hd]
                  rw [hd] at ht1
                  exact ht1
            have IH := walkFields_pin o fs t2 t' h ht2
            refine ⟨IH.1, ?_, ?_⟩
            · intro hne
              have h1 : t1.PrimaryKey = t.PrimaryKey := hb1 hne
              have hne1 : t1.PrimaryKey ≠ "" := by rw [h1]; exact hne
              have h2 : t2.PrimaryKey = t1.PrimaryKey := hb2 hne1
              have hne2 : t2.PrimaryKey ≠ "" := by rw [h2]; exact hne1
              rw [IH.2.1 hne2, h2]
              exact h1
            · intro p hp hne
              rw [show fieldsDecls o (.cons f fs) =
                subDecls o f ++ pkDeclOf o f ++ fieldsDecls o fs from rfl] at hp
              rcases List.mem_append.mp hp with hp' | hp3
              · rcases List.mem_append.mp hp' with hp1 | hp2
                · have h1 := hsub p hp1 hne
                  have hne1 : t1.PrimaryKey ≠ "" := by rw [← h1]; exact hne
                  have h2 := hb2 hne1
                  have hne2 : t2.PrimaryKey ≠ "" := by rw [h2]; exact hne1
                  rw [IH.2.1 hne2, h2, ← h1]
                · have hpk : pkRaw (getTagValue o.columnTag f) = some p := by
                    simp [pkDeclOf, hname, Option.mem_toList, Option.mem_def] at hp2
                    exact hp2
                  rcases AC.2 with ⟨_, hnone⟩ | ⟨p0, hsome, _, hset⟩
                  · rw [hpk] at hnone
                    exact absurd hnone (by simp)
                  · rw [hpk] at hsome
                    injection hsome with hs
                    subst hs
                    have hne2 : t2.PrimaryKey ≠ "" := by rw [hset]; exact hne
                    rw [IH.2.1 hne2, hset]
              · exact IH.2.2 p hp3 hne
        · rw [if_neg hname] at h
          have IH := walkFields_pin o fs t1 t' h ht1
          refine ⟨IH.1, ?_, ?_⟩
          · intro hne
            have h1 := hb1 hne
            have hne1 : t1.PrimaryKey ≠ "" := by rw [h1]; exact hne
            rw [IH.2.1 hne1]
            exact h1
          · intro p hp hne
            rw [show fieldsDecls o (.cons f fs) =
              subDecls o f ++ pkDeclOf o f ++ fieldsDecls o fs from rfl] at hp
            rcases List.mem_append.mp hp with hp' | hp3
            · rcases List.mem_append.mp hp' with hp1 | hp2
              · have h1 := hsub p hp1 hne
                have hne1 : t1.PrimaryKey ≠ "" := by rw [← h1]; exact hne
                rw [IH.2.1 hne1, ← h1]
              · have hempty : getTagValue o.columnTag f = "" := by
                  by_contra hcon
                  exact hname hcon
                simp [pkDeclOf, hempty] at hp2
            · exact IH.2.2 p hp3 hne
end


/-! ### Success when all declarations carry one identical trimmed name -/

mutual
theorem fieldColumns_same (o : Options) (c : String) (hc : Trimmed c) :
    ∀ (f : GoField), (∀ p ∈ subDecls o f, p = c) →
      ∃ rt, fieldColumns o f = .ok rt ∧
        (rt.PrimaryKey = "" ∨ rt.PrimaryKey = c)
  | .mk tags .leaf, _ => ⟨{}, by simp [fieldColumns], Or.inl rfl⟩
  | .mk tags .ptrOther, _ => ⟨{}, by simp [fieldColumns], Or.inl rfl⟩
  | .mk tags (.strukt fs), hall => by
    obtain ⟨t', ht', hpk⟩ := walkFields_same o c hc fs {}
      (by intro p hp; exact hall p (by simpa [subDecls] using hp)) (Or.inl rfl)
    exact ⟨t', by simpa [fieldColumns] using ht', hpk⟩
  | .mk tags (.ptrStruct fs), hall => by
    obtain ⟨t', ht', hpk⟩ := walkFields_same o c hc fs {}
      (by intro p hp; exact hall p (by simpa [subDecls] using hp)) (Or.inl rfl)
    exact ⟨t', by simpa [fieldColumns] using ht', hpk⟩

theorem walkFields_same (o : Options) (c : String) (hc : Trimmed c) :
    ∀ (fs : GoFields) (t : Table), (∀ p ∈ fieldsDecls o fs, p = c) →
      (t.PrimaryKey = "" ∨ t.PrimaryKey = c) →
      ∃ t', walkFields o fs t = .ok t' ∧
        (t'.PrimaryKey = "" ∨ t'.PrimaryKey = c)
  | .nil, t, _, hpk => ⟨t, by simp [walkFields], hpk⟩
  | .cons f fs, t, hall, hpk => by
    have hall' : ∀ p ∈ subDecls o f, p = c := by
      intro p hp
      exact hall p (by
        rw [show fieldsDecls o (.cons f fs) =
          subDecls o f ++ pkDeclOf o f ++ fieldsDecls o fs from rfl]
        exact List.mem_append.mpr (Or.inl (List.mem_append.mpr (Or.inl hp))))
    obtain ⟨rt, hrt, hrtpk⟩ := fieldColumns_same o c hc f hall'
    -- the merge succeeds
    have hmerge : ∃ t1, t.addColumnsFromTable rt = .ok t1 ∧
        (t1.PrimaryKey = "" ∨ t1.PrimaryKey = c) := by
      unfold Table.addColumnsFromTable
      by_cases hr : rt.PrimaryKey = ""
      · rw [if_neg (by simp [hr])]
        exact ⟨_, rfl, hpk⟩
      · rw [if_pos hr]
        have hcond : (t.PrimaryKey ≠ "" && t.PrimaryKey ≠ rt.PrimaryKey) = false := by
          rcases hrtpk with h1 | h1
          · exact absurd h1 hr
          · rcases hpk with h2 | h2
            · simp [h2]
            · simp [h1, h2]
        rw [hcond]
        simp only [Bool.false_eq_true, if_false]
        refine ⟨_, rfl, ?_⟩
        rcases hrtpk with h1 | h1
        · exact absurd h1 hr
        · simp [h1]
    obtain ⟨t1, ht1, ht1pk⟩ := hmerge
    have hrest : ∀ p ∈ fieldsDecls o fs, p = c := by
      intro p hp
      exact hall p (by
        rw [show fieldsDecls o (.cons f fs) =
          subDecls o f ++ pkDeclOf o f ++ fieldsDecls o fs from rfl]
        exact List.mem_append.mpr (Or.inr hp))
    by_cases hname : (getTagValue o.columnTag f ≠ "")
    · -- own tag present: addColumn succeeds
      have hadd : ∃ t2, t1.addColumn (getTagValue o.columnTag f) = .ok t2 ∧
          (t2.PrimaryKey = "" ∨ t2.PrimaryKey = c) := by
        unfold Table.addColumn
        cases hsplit : splitComma2 (getTagValue o.columnTag f) with
        | none => exact ⟨_, rfl, ht1pk⟩
        | some pr =>
          obtain ⟨p0, p1⟩ := pr
          dsimp only []
          by_cases hpk1 : isPrimaryKey p1 = true
          · rw [if_pos hpk1]
            have hdecl : p0 = c := by
              apply hall
              rw [show fieldsDecls o (.cons f fs) =
                subDecls o f ++ pkDeclOf o f ++ fieldsDecls o fs from rfl]
              refine List.mem_append.mpr (Or.inl (List.mem_append.mpr (Or.inr ?_)))
              simp [pkDeclOf, hname, pkRaw, hsplit, hpk1, Option.mem_toList,
                Option.mem_def]
            have hcond : (t1.PrimaryKey ≠ "" && t1.PrimaryKey ≠ p0) = false := by
              rcases ht1pk with h1 | h1
              · simp [h1]
              · simp [h1, hdecl]
            rw [hcond]
            simp only [Bool.false_eq_true, if_false]
            refine ⟨_, rfl, Or.inr ?_⟩
            show goTrimSpace p0 = c
            rw [hdecl]
            exact hc
          · rw [if_neg hpk1]
            exact ⟨_, rfl, ht1pk⟩
      obtain ⟨t2, ht2, ht2pk⟩ := hadd
      obtain ⟨t', hw, hwpk⟩ := walkFields_same o c hc fs t2 hrest ht2pk
      refine ⟨t', ?_, hwpk⟩
      unfold walkFields
      rw [hrt]
      dsimp only []
      rw [ht1]
      dsimp only []
      rw [if_pos hname, ht2]
      exact hw
    · obtain ⟨t', hw, hwpk⟩ := walkFields_same o c hc fs t1 hrest ht1pk
      refine ⟨t', ?_, hwpk⟩
      unfold walkFields
      rw [hrt]
      dsimp only []
      rw [ht1]
      dsimp only []
      rw [if_neg hname]
      exact hw
end

/-! ### The name field does not affect the columns and the primary key -/

/-- Forget the name part of a resolution outcome. -/
def stripName : Except QBErr Table → Except QBErr (List String × String)
  | .error e => .error e
  | .ok t => .ok (t.Columns, t.PrimaryKey)

theorem strip_cases (x y : Except QBErr Table) (h : stripName x = stripName y) :
    (∃ e, x = .error e ∧ y = .error e) ∨
    (∃ u v, x = .ok u ∧ y = .ok v ∧ u.Columns = v.Columns ∧
      u.PrimaryKey = v.PrimaryKey) := by
  cases x with
  | error e =>
    cases y with
    | error e2 =>
      simp only [stripName, Except.error.injEq] at h
      exact Or.inl ⟨e, rfl, by rw [h]⟩
    | ok v => simp [stripName] at h
  | ok u =>
    cases y with
    | error e => simp [stripName] at h
    | ok v =>
      simp only [stripName, Except.ok.injEq, Prod.mk.injEq] at h
      exact Or.inr ⟨u, v, rfl, rfl, h.1, h.2⟩

theorem adoptName_Columns (o : Options) (f : GoField) (t : Table) :
    (adoptName o f t).Columns = t.Columns := by
  unfold adoptName
  split
  · dsimp only []
    split <;> rfl
  · rfl

theorem adoptName_PrimaryKey (o : Options) (f : GoField) (t : Table) :
    (adoptName o f t).PrimaryKey = t.PrimaryKey := by
  unfold adoptName
  split
  · dsimp only []
    split <;> rfl
  · rfl

theorem addColumn_strip (t₁ t₂ : Table) (name : String)
    (hc : t₁.Columns = t₂.Columns) (hp : t₁.PrimaryKey = t₂.PrimaryKey) :
    stripName (t₁.addColumn name) = stripName (t₂.addColumn name) := by
  unfold Table.addColumn
  rw [hp, hc]
  cases hsplit : splitComma2 name with
  | none => rfl
  | some pr =>
    obtain ⟨p0, p1⟩ := pr
    dsimp only []
    by_cases hpk : isPrimaryKey p1 = true
    · rw [if_pos hpk, if_pos hpk]
      by_cases hcond : (t₂.PrimaryKey ≠ "" && t₂.PrimaryKey ≠ p0) = true
      · rw [if_pos hcond, if_pos hcond]
      · rw [if_neg hcond, if_neg hcond]
        rfl
    · rw [if_neg hpk, if_neg hpk]
      rfl

theorem addColumnsFromTable_strip (t₁ t₂ rt : Table)
    (hc : t₁.Columns = t₂.Columns) (hp : t₁.PrimaryKey = t₂.PrimaryKey) :
    stripName (t₁.addColumnsFromTable rt) = stripName (t₂.addColumnsFromTable rt) := by
  unfold Table.addColumnsFromTable
  rw [hp, hc]
  by_cases hr : rt.PrimaryKey ≠ ""
  · rw [if_pos hr, if_pos hr]
    by_cases hcond : (t₂.PrimaryKey ≠ "" && t₂.PrimaryKey ≠ rt.PrimaryKey) = true
    · rw [if_pos hcond, if_pos hcond]
    · rw [if_neg hcond, if_neg hcond]
      rfl
  · rw [if_neg hr, if_neg hr]
    rfl

/-- The getTable loop and the plain walk agree on columns and primary key:
the name adoption only touches the name. -/
theorem getTableLoop_strip (o : Options) :
    ∀ (fs : GoFields) (t₁ t₂ : Table), t₁.Columns = t₂.Columns →
      t₁.PrimaryKey = t₂.PrimaryKey →
      stripName (getTableLoop o fs t₁) = stripName (walkFields o fs t₂)
  | .nil, t₁, t₂, hc, hp => by
    simp [getTableLoop, walkFields, stripName, hc, hp]
  | .cons f fs, t₁, t₂, hc, hp => by
    unfold getTableLoop walkFields
    dsimp only []
    have hc1 : (adoptName o f t₁).Columns = t₂.Columns := by
      rw [adoptName_Columns]; exact hc
    have hp1 : (adoptName o f t₁).PrimaryKey = t₂.PrimaryKey := by
      rw [adoptName_PrimaryKey]; exact hp
    cases hfc : fieldColumns o f with
    | error e => rfl
    | ok rt =>
      dsimp only []
      have hstrip := addColumnsFromTable_strip (adoptName o f t₁) t₂ rt hc1 hp1
      rcases strip_cases _ _ hstrip with ⟨e, hx, hy⟩ | ⟨u, v, hx, hy, huc, hup⟩
      · rw [hx, hy]
      · rw [hx, hy]
        dsimp only []
        by_cases hname : (getTagValue o.columnTag f ≠ "")
        · rw [if_pos hname, if_pos hname]
          have hstrip2 := addColumn_strip u v (getTagValue o.columnTag f) huc hup
          rcases strip_cases _ _ hstrip2 with ⟨e2, hx2, hy2⟩ | ⟨u2, v2, hx2, hy2, h2c, h2p⟩
          · rw [hx2, hy2]
          · rw [hx2, hy2]
            dsimp only []
            exact getTableLoop_strip o fs u2 v2 h2c h2p
        · rw [if_neg hname, if_neg hname]
          exact getTableLoop_strip o fs u v huc hup

/-- getTable agrees with the bare walk from the empty table on columns and
primary key: the initial table and the final fixup only set the name. -/
theorem getTable_strip (o : Options) (s : GoStruct) :
    stripName (getTable o s) = stripName (walkFields o s.fields {}) := by
  have h := getTableLoop_strip o s.fields { Name := o.tableName } {} rfl rfl
  unfold getTable
  cases hloop : getTableLoop o s.fields { Name := o.tableName } with
  | error e =>
    rw [hloop] at h
    dsimp only []
    exact h
  | ok t =>
    rw [hloop] at h
    dsimp only []
    rw [← h]
    by_cases hn : t.Name = ""
    · rw [if_pos hn]
      rfl
    · rw [if_neg hn]

/-- After a successful getTable every non empty trimmed primary key
declaration of the walked fields equals the resulting primary key. -/
theorem getTable_pin (o : Options) (s : GoStruct) (t : Table)
    (h : getTable o s = .ok t) :
    ∀ p ∈ fieldsDecls o s.fields, goTrimSpace p ≠ "" → goTrimSpace p = t.PrimaryKey := by
  have hs := getTable_strip o s
  rw [h] at hs
  rcases strip_cases _ _ hs with ⟨e, hx, _⟩ | ⟨u, v, hx, hy, _, hup⟩
  · exact absurd hx (by simp)
  · injection hx with hx
    subst hx
    have W := walkFields_pin o s.fields {} v hy trimmed_empty
    intro p hp hne
    rw [hup]
    exact W.2.2 p hp hne

/-- Every error getTable returns is the ambiguous primary key error. -/
theorem getTable_err_ambiguous (o : Options) (s : GoStruct) (e : QBErr)
    (h : getTable o s = .error e) : e = .ambiguousPrimaryKey := by
  have hs := getTable_strip o s
  rw [h] at hs
  rcases strip_cases _ _ hs with ⟨e2, hx, hy⟩ | ⟨u, v, hx, _, _, _⟩
  · injection hx with hx
    subst hx
    exact walkFields_err o s.fields {} e hy
  · exact absurd hx (by simp)

/-! ### C1: primary key merging -/

/-- C1: for every structure resolution, two primary key declarations with
distinct non empty trimmed names make resolution fail with the ambiguous
primary key error, so no key is picked silently; and when every primary key
declaration carries one and the same raw name, already trimmed, resolution
succeeds and the non empty name wins. The trimming proviso of the second
part is the correction: the code compares the raw text before the comma of
a new declaration against the trimmed stored key, so a repeated declaration
whose raw text carries surrounding spaces is rejected even though both
occurrences are identical. -/
theorem primary_key_merge :
    (∀ (o : Options) (s : GoStruct) (p q : String),
      p ∈ fieldsDecls o s.fields → q ∈ fieldsDecls o s.fields →
      goTrimSpace p ≠ "" → goTrimSpace q ≠ "" → goTrimSpace p ≠ goTrimSpace q →
      getTable o s = .error .ambiguousPrimaryKey) ∧
    (∀ (o : Options) (s : GoStruct) (c : String),
      (∀ p ∈ fieldsDecls o s.fields, p = c) → Trimmed c →
      ∃ t, getTable o s = .ok t ∧
        (c ≠ "" → c ∈ fieldsDecls o s.fields → t.PrimaryKey = c)) := by
  constructor
  · intro o s p q hp hq hnp hnq hne
    cases hg : getTable o s with
    | ok t =>
      have h1 := getTable_pin o s t hg p hp hnp
      have h2 := getTable_pin o s t hg q hq hnq
      exact absurd (h1.trans h2.symm) hne
    | error e =>
      rw [getTable_err_ambiguous o s e hg]
  · intro o s c hall hc
    obtain ⟨tw, hw, _⟩ := walkFields_same o c hc s.fields {} hall (Or.inl rfl)
    have hs := getTable_strip o s
    rw [hw] at hs
    cases hg : getTable o s with
    | error e =>
      rw [hg] at hs
      rcases strip_cases _ _ hs with ⟨e2, hx, hy⟩ | ⟨u, v, hx, hy, _, _⟩
      · exact absurd hy (by simp)
      · exact absurd hx (by simp)
    | ok t =>
      refine ⟨t, rfl, ?_⟩
      intro hcne hmem
      have hpin := getTable_pin o s t hg c hmem (by rw [hc]; exact hcne)
      rw [hc] at hpin
      exact hpin.symm

/-- C1 counterexample: two fields carry the identical primary key tag with a
leading space, so the spec sees one repeated name, yet resolution rejects the
structure: the second declaration compares its raw text against the key
stored trimmed by the first. -/
theorem primary_key_merge_cex :
    fieldsDecls defaultOptions
      (GoFields.cons (.mk [("db", " id,pkey")] .leaf)
        (GoFields.cons (.mk [("db", " id,pkey")] .leaf) .nil)) = [" id", " id"] ∧
    goTrimSpace " id" = "id" ∧
    getTable defaultOptions
      { name := "T",
        fields := GoFields.cons (.mk [("db", " id,pkey")] .leaf)
          (GoFields.cons (.mk [("db", " id,pkey")] .leaf) .nil) } =
      .error .ambiguousPrimaryKey :=
  ⟨by decide, by decide, rfl⟩

theorem primary_key_merge_witness :
    getTable defaultOptions
      { name := "A",
        fields := GoFields.cons (.mk [("db", "a,pkey")] .leaf)
          (GoFields.cons (.mk [("db", "b,pkey")] .leaf) .nil) } =
      .error .ambiguousPrimaryKey ∧
    ∃ t, getTable defaultOptions
        { name := "B",
          fields := GoFields.cons (.mk [("db", "id,pkey")] .leaf)
            (GoFields.cons (.mk [("db", "id,pkey")] .leaf) .nil) } = .ok t ∧
      ("id" ≠ "" →
        "id" ∈ fieldsDecls defaultOptions
          (GoFields.cons (.mk [("db", "id,pkey")] .leaf)
            (GoFields.cons (.mk [("db", "id,pkey")] .leaf) .nil)) →
        t.PrimaryKey = "id") := by
  constructor
  · exact primary_key_merge.1 defaultOptions
      { name := "A",
        fields := GoFields.cons (.mk [("db", "a,pkey")] .leaf)
          (GoFields.cons (.mk [("db", "b,pkey")] .leaf) .nil) }
      "a" "b" (by decide) (by decide) (by decide) (by decide) (by decide)
  · exact primary_key_merge.2 defaultOptions
      { name := "B",
        fields := GoFields.cons (.mk [("db", "id,pkey")] .leaf)
          (GoFields.cons (.mk [("db", "id,pkey")] .leaf) .nil) }
      "id" (by decide) rfl

/-! ### C2: derivation of the table name -/

/-- The table name rule as the spec words it: insert an underscore before
each internal uppercase letter, then lowercase the whole name. This
definition follows the spec text and is compared against getTableName. -/
def specTableName (s : String) : String :=
  match s.data with
  | [] => ""
  | c :: cs =>
    ⟨(c :: cs.flatMap (fun d => if d.isUpper then ['_', d] else [d])).map Char.toLower⟩

theorem map_toLower_camel : ∀ cs : List Char,
    (cs.flatMap (fun d => if d.isUpper then ['_', d] else [d])).map Char.toLower =
      cs.flatMap camelChar
  | [] => rfl
  | c :: cs => by
    rw [List.flatMap_cons, List.flatMap_cons, List.map_append, map_toLower_camel cs]
    congr 1
    by_cases h : c.isUpper = true
    · rw [if_pos h]
      unfold camelChar
      rw [if_pos h]
      simp only [List.map_cons, List.map_nil]
      rw [show '_'.toLower = '_' from by decide]
    · rw [if_neg h]
      unfold camelChar
      rw [if_neg h]
      rfl

/-- The source derivation satisfies the spec rule. -/
theorem getTableName_eq_spec (s : String) : getTableName s = specTableName s := by
  unfold getTableName specTableName
  cases hd : s.data with
  | nil => rfl
  | cons c cs =>
    dsimp only []
    rw [List.map_cons, map_toLower_camel cs]

/-- adoptName does nothing when the field has no table tag. -/
theorem adoptName_eq_self (o : Options) (f : GoField) (t : Table)
    (h : getTagValue o.tableTag f = "") : adoptName o f t = t := by
  unfold adoptName
  split
  · dsimp only []
    rw [if_neg (by simp [h])]
  · rfl

mutual
/-- No table name tag inside the type of a field. -/
def subNoTableTag (o : Options) : GoField → Bool
  | .mk _ .leaf => true
  | .mk _ .ptrOther => true
  | .mk _ (.strukt fs) => fieldsNoTableTag o fs
  | .mk _ (.ptrStruct fs) => fieldsNoTableTag o fs

/-- No table name tag anywhere in a field list. -/
def fieldsNoTableTag (o : Options) : GoFields → Bool
  | .nil => true
  | .cons f fs =>
    (getTagValue o.tableTag f = "") && subNoTableTag o f && fieldsNoTableTag o fs
end

/-- Without table tags the loop keeps the initial name. -/
theorem getTableLoop_name (o : Options) :
    ∀ (fs : GoFields) (t t' : Table), fieldsNoTableTag o fs = true →
      getTableLoop o fs t = .ok t' → t'.Name = t.Name
  | .nil, t, t', _, h => by
    simp only [getTableLoop] at h
    injection h with h2
    rw [← h2]
  | .cons f fs, t, t', hno, h => by
    simp only [fieldsNoTableTag, Bool.and_eq_true, decide_eq_true_eq] at hno
    obtain ⟨⟨htag, _⟩, hrest⟩ := hno
    unfold getTableLoop at h
    rw [adoptName_eq_self o f t htag] at h
    split at h
    · exact absurd h (by simp)
    · next rt heq1 =>
      dsimp only [] at h
      split at h
      · exact absurd h (by simp)
      · next t1 heq2 =>
        by_cases hname : (getTagValue o.columnTag f ≠ "")
        · rw [if_pos hname] at h
          split at h
          · exact absurd h (by simp)
          · next t2 heq3 =>
            have h2 := getTableLoop_name o fs t2 t' hrest h
            rw [h2, (addColumn_pk t1 (getTagValue o.columnTag f) t2 heq3).1,
              (addColumnsFromTable_pk t rt t1 heq2).1]
        · rw [if_neg hname] at h
          have h2 := getTableLoop_name o fs t1 t' hrest h
          rw [h2, (addColumnsFromTable_pk t rt t1 heq2).1]

/-- Without table tags and a name option the resolved name is derived from
the type name. -/
theorem getTable_name (o : Options) (s : GoStruct) (t : Table)
    (hopt : o.tableName = "") (hno : fieldsNoTableTag o s.fields = true)
    (h : getTable o s = .ok t) : t.Name = getTableName s.name := by
  unfold getTable at h
  split at h
  · exact absurd h (by simp)
  · next t0 hloop =>
    have hn0 : t0.Name = "" := by
      rw [getTableLoop_name o s.fields { Name := o.tableName } t0 hno hloop]
      exact hopt
    rw [if_pos hn0] at h
    injection h with h2
    rw [← h2]

/-- C2: for a structure with no table name tag anywhere and no name option,
the derived table name follows the spec rule: an underscore before each
internal uppercase letter of the type name, then the whole name lowercased;
getTableName provably equals that rule, and UserAccount yields user_account.
Corrected: the spec example for the type name ID is wrong; the rule puts an
underscore before the internal uppercase D, so ID yields i_d, not id. -/
theorem table_name_derivation :
    (∀ s : String, getTableName s = specTableName s) ∧
    (∀ (o : Options) (s : GoStruct) (t : Table), o.tableName = "" →
      fieldsNoTableTag o s.fields = true → getTable o s = .ok t →
      t.Name = getTableName s.name) ∧
    getTableName "UserAccount" = "user_account" ∧
    getTableName "ID" = "i_d" :=
  ⟨getTableName_eq_spec, getTable_name, by decide, by decide⟩

/-- C2 counterexample: the spec says the type name ID yields table name id,
but the rule and the code insert an underscore before the internal uppercase
D: the derived name is i_d, also through the whole resolution pipeline. -/
theorem table_name_derivation_cex :
    getTableName "ID" = "i_d" ∧ "i_d" ≠ "id" ∧
    getTable defaultOptions
      { name := "ID", fields := GoFields.cons (.mk [("db", "x")] .leaf) .nil } =
      .ok { Name := "i_d", Columns := ["x"], PrimaryKey := "" } :=
  ⟨by decide, by decide, rfl⟩

theorem table_name_derivation_witness :
    ({ Name := "user_account", Columns := ["x"], PrimaryKey := "" } : Table).Name =
      getTableName "UserAccount" :=
  table_name_derivation.2.1 defaultOptions
    { name := "UserAccount", fields := GoFields.cons (.mk [("db", "x")] .leaf) .nil }
    { Name := "user_account", Columns := ["x"], PrimaryKey := "" }
    rfl (by decide) rfl

/-! ### C7: only structure like values are accepted -/

/-- The inputs reflect classifies as a structure, possibly behind a pointer
or an interface. -/
def isStructLike : GoValue → Bool
  | .strukt _ => true
  | .ptrStruct _ => true
  | .iface _ => true
  | .nilPtr => false
  | .prim => false

/-- C7: building a query builder from a value that is not a structure and
not a pointer or interface holding one fails with the not a structure error
and returns no builder, and a structure like value never raises that
error. -/
theorem not_a_structure :
    (∀ (i : GoValue) (opts : List (Options → Options)), isStructLike i = false →
      New i opts = .error .notAStructure) ∧
    (∀ (i : GoValue) (opts : List (Options → Options)), isStructLike i = true →
      New i opts ≠ .error .notAStructure) := by
  constructor
  · intro i opts hlike
    cases i with
    | strukt s => simp [isStructLike] at hlike
    | ptrStruct s => simp [isStructLike] at hlike
    | iface s => simp [isStructLike] at hlike
    | nilPtr => rfl
    | prim => rfl
  · intro i opts hlike hcontra
    cases i with
    | nilPtr => simp [isStructLike] at hlike
    | prim => simp [isStructLike] at hlike
    | strukt s =>
      simp only [New, getTableV, structOf] at hcontra
      split at hcontra
      · next e hg =>
        injection hcontra with h2
        have ha := getTable_err_ambiguous _ s e hg
        rw [ha] at h2
        exact QBErr.noConfusion h2
      · simp at hcontra
    | ptrStruct s =>
      simp only [New, getTableV, structOf] at hcontra
      split at hcontra
      · next e hg =>
        injection hcontra with h2
        have ha := getTable_err_ambiguous _ s e hg
        rw [ha] at h2
        exact QBErr.noConfusion h2
      · simp at hcontra
    | iface s =>
      simp only [New, getTableV, structOf] at hcontra
      split at hcontra
      · next e hg =>
        injection hcontra with h2
        have ha := getTable_err_ambiguous _ s e hg
        rw [ha] at h2
        exact QBErr.noConfusion h2
      · simp at hcontra

theorem not_a_structure_witness :
    New .prim [] = .error .notAStructure ∧
    New (.strukt { name := "T", fields := GoFields.cons (.mk [("db", "x")] .leaf) .nil })
      [] ≠ .error .notAStructure :=
  ⟨not_a_structure.1 .prim [] (by decide),
   not_a_structure.2
     (.strukt { name := "T", fields := GoFields.cons (.mk [("db", "x")] .leaf) .nil })
     [] (by decide)⟩

/-! ### C9: a dash column tag counts as no tag -/

theorem tagGet_filter_self (ck : String) : ∀ tags : List (String × String),
    tagGet ck (tags.filter fun p => p.1 ≠ ck) = ""
  | [] => rfl
  | (a, b) :: tags => by
    rw [List.filter_cons]
    by_cases ha : a = ck
    · rw [if_neg (by simp [ha])]
      exact tagGet_filter_self ck tags
    · rw [if_pos (by simp [ha])]
      unfold tagGet
      rw [if_neg ha]
      exact tagGet_filter_self ck tags

theorem tagGet_filter_ne {k ck : String} (h : k ≠ ck) :
    ∀ tags : List (String × String),
      tagGet k (tags.filter fun p => p.1 ≠ ck) = tagGet k tags
  | [] => rfl
  | (a, b) :: tags => by
    rw [List.filter_cons]
    by_cases ha : a = ck
    · rw [if_neg (by simp [ha])]
      conv_rhs => unfold tagGet
      have hne : ¬(a = k) := by
        intro hak
        rw [← hak] at h
        exact h ha
      rw [if_neg hne]
      exact tagGet_filter_ne h tags
    · rw [if_pos (by simp [ha])]
      unfold tagGet
      by_cases hak : a = k
      · rw [if_pos hak, if_pos hak]
      · rw [if_neg hak, if_neg hak]
        exact tagGet_filter_ne h tags

/-- Removing every entry under a dash valued key leaves all tag reads
unchanged: the dashed key reads empty either way, any other key reads the
same entry. -/
theorem getTagValue_dash (ck k : String) (tags : List (String × String))
    (s₁ s₂ : GoSub) (h : tagGet ck tags = "-") :
    getTagValue k (.mk tags s₁) =
      getTagValue k (.mk (tags.filter fun p => p.1 ≠ ck) s₂) := by
  show (if tagGet k tags = "-" then "" else tagGet k tags) =
    (if tagGet k (tags.filter fun p => p.1 ≠ ck) = "-" then ""
      else tagGet k (tags.filter fun p => p.1 ≠ ck))
  by_cases hk : k = ck
  · subst hk
    rw [h, tagGet_filter_self]
    decide
  · rw [tagGet_filter_ne hk]

mutual
/-- A structure shape with some dash tagged fields replaced by untagged
ones, inside the type of a field. -/
inductive DashSub (o : Options) : GoSub → GoSub → Prop where
  | leaf : DashSub o .leaf .leaf
  | ptrOther : DashSub o .ptrOther .ptrOther
  | strukt : ∀ (fs₁ fs₂ : GoFields), DashFields o fs₁ fs₂ →
      DashSub o (.strukt fs₁) (.strukt fs₂)
  | ptrStruct : ∀ (fs₁ fs₂ : GoFields), DashFields o fs₁ fs₂ →
      DashSub o (.ptrStruct fs₁) (.ptrStruct fs₂)

/-- Field lists equal up to replacing fields whose column tag reads the
literal dash by the same fields with every column tag entry removed, at any
position, nested ones included. -/
inductive DashFields (o : Options) : GoFields → GoFields → Prop where
  | nil : DashFields o .nil .nil
  | keep : ∀ (tags : List (String × String)) (sub₁ sub₂ : GoSub)
      (fs₁ fs₂ : GoFields), DashSub o sub₁ sub₂ → DashFields o fs₁ fs₂ →
      DashFields o (.cons (.mk tags sub₁) fs₁) (.cons (.mk tags sub₂) fs₂)
  | drop : ∀ (tags : List (String × String)) (sub₁ sub₂ : GoSub)
      (fs₁ fs₂ : GoFields), tagGet o.columnTag tags = "-" →
      DashSub o sub₁ sub₂ → DashFields o fs₁ fs₂ →
      DashFields o (.cons (.mk tags sub₁) fs₁)
        (.cons (.mk (tags.filter fun p => p.1 ≠ o.columnTag) sub₂) fs₂)
end

mutual
theorem fieldColumns_dash (o : Options) :
    ∀ {s₁ s₂ : GoSub}, DashSub o s₁ s₂ →
      ∀ (tags₁ tags₂ : List (String × String)),
        fieldColumns o (.mk tags₁ s₁) = fieldColumns o (.mk tags₂ s₂)
  | _, _, .leaf, _, _ => rfl
  | _, _, .ptrOther, _, _ => rfl
  | _, _, .strukt fs₁ fs₂ hfs, _, _ => by
    simp only [fieldColumns]
    exact walkFields_dash o hfs {}
  | _, _, .ptrStruct fs₁ fs₂ hfs, _, _ => by
    simp only [fieldColumns]
    exact walkFields_dash o hfs {}

theorem walkFields_dash (o : Options) :
    ∀ {fs₁ fs₂ : GoFields}, DashFields o fs₁ fs₂ →
      ∀ t : Table, walkFields o fs₁ t = walkFields o fs₂ t
  | _, _, .nil, _ => rfl
  | _, _, .keep tags sub₁ sub₂ fs₁ fs₂ hsub hfs, t => by
    unfold walkFields
    rw [fieldColumns_dash o hsub tags tags]
    cases hfc : fieldColumns o (GoField.mk tags sub₂) with
    | error e => rfl
    | ok rt =>
      dsimp only []
      cases hadd : Table.addColumnsFromTable t rt with
      | error e => rfl
      | ok t1 =>
        dsimp only []
        have hgv : getTagValue o.columnTag (GoField.mk tags sub₁) =
            getTagValue o.columnTag (GoField.mk tags sub₂) := rfl
        rw [hgv]
        by_cases hname : (getTagValue o.columnTag (GoField.mk tags sub₂) ≠ "")
        · rw [if_pos hname, if_pos hname]
          cases hac : Table.addColumn t1 (getTagValue o.columnTag (GoField.mk tags sub₂)) with
          | error e => rfl
          | ok t2 =>
            dsimp only []
            exact walkFields_dash o hfs t2
        · rw [if_neg hname, if_neg hname]
          exact walkFields_dash o hfs t1
  | _, _, .drop tags sub₁ sub₂ fs₁ fs₂ hdash hsub hfs, t => by
    unfold walkFields
    rw [fieldColumns_dash o hsub tags (tags.filter fun p => p.1 ≠ o.columnTag)]
    cases hfc : fieldColumns o
        (GoField.mk (tags.filter fun p => p.1 ≠ o.columnTag) sub₂) with
    | error e => rfl
    | ok rt =>
      dsimp only []
      cases hadd : Table.addColumnsFromTable t rt with
      | error e => rfl
      | ok t1 =>
        dsimp only []
        rw [getTagValue_dash o.columnTag o.columnTag tags sub₁ sub₂ hdash]
        by_cases hname : (getTagValue o.columnTag
            (GoField.mk (tags.filter fun p => p.1 ≠ o.columnTag) sub₂) ≠ "")
        · rw [if_pos hname, if_pos hname]
          cases hac : Table.addColumn t1 (getTagValue o.columnTag
              (GoField.mk (tags.filter fun p => p.1 ≠ o.columnTag) sub₂)) with
          | error e => rfl
          | ok t2 =>
            dsimp only []
            exact walkFields_dash o hfs t2
        · rw [if_neg hname, if_neg hname]
          exact walkFields_dash o hfs t1
end

theorem adoptName_congr (o : Options) (f₁ f₂ : GoField) (t : Table)
    (h : getTagValue o.tableTag f₁ = getTagValue o.tableTag f₂) :
    adoptName o f₁ t = adoptName o f₂ t := by
  unfold adoptName
  rw [h]

theorem getTableLoop_dash (o : Options) :
    ∀ {fs₁ fs₂ : GoFields}, DashFields o fs₁ fs₂ →
      ∀ t : Table, getTableLoop o fs₁ t = getTableLoop o fs₂ t
  | _, _, .nil, _ => rfl
  | _, _, .keep tags sub₁ sub₂ fs₁ fs₂ hsub hfs, t => by
    unfold getTableLoop
    rw [adoptName_congr o (GoField.mk tags sub₁) (GoField.mk tags sub₂) t rfl]
    rw [fieldColumns_dash o hsub tags tags]
    cases hfc : fieldColumns o (GoField.mk tags sub₂) with
    | error e => rfl
    | ok rt =>
      dsimp only []
      cases hadd : Table.addColumnsFromTable (adoptName o (GoField.mk tags sub₂) t) rt with
      | error e => rfl
      | ok t1 =>
        dsimp only []
        have hgv : getTagValue o.columnTag (GoField.mk tags sub₁) =
            getTagValue o.columnTag (GoField.mk tags sub₂) := rfl
        rw [hgv]
        by_cases hname : (getTagValue o.columnTag (GoField.mk tags sub₂) ≠ "")
        · rw [if_pos hname, if_pos hname]
          cases hac : Table.addColumn t1 (getTagValue o.columnTag (GoField.mk tags sub₂)) with
          | error e => rfl
          | ok t2 =>
            dsimp only []
            exact getTableLoop_dash o hfs t2
        · rw [if_neg hname, if_neg hname]
          exact getTableLoop_dash o hfs t1
  | _, _, .drop tags sub₁ sub₂ fs₁ fs₂ hdash hsub hfs, t => by
    unfold getTableLoop
    rw [adoptName_congr o (GoField.mk tags sub₁)
      (GoField.mk (tags.filter fun p => p.1 ≠ o.columnTag) sub₂) t
      (getTagValue_dash o.columnTag o.tableTag tags sub₁ sub₂ hdash)]
    rw [fieldColumns_dash o hsub tags (tags.filter fun p => p.1 ≠ o.columnTag)]
    cases hfc : fieldColumns o
        (GoField.mk (tags.filter fun p => p.1 ≠ o.columnTag) sub₂) with
    | error e => rfl
    | ok rt =>
      dsimp only []
      cases hadd : Table.addColumnsFromTable
          (adoptName o (GoField.mk (tags.filter fun p => p.1 ≠ o.columnTag) sub₂) t) rt with
      | error e => rfl
      | ok t1 =>
        dsimp only []
        rw [getTagValue_dash o.columnTag o.columnTag tags sub₁ sub₂ hdash]
        by_cases hname : (getTagValue o.columnTag
            (GoField.mk (tags.filter fun p => p.1 ≠ o.columnTag) sub₂) ≠ "")
        · rw [if_pos hname, if_pos hname]
          cases hac : Table.addColumn t1 (getTagValue o.columnTag
              (GoField.mk (tags.filter fun p => p.1 ≠ o.columnTag) sub₂)) with
          | error e => rfl
          | ok t2 =>
            dsimp only []
            exact getTableLoop_dash o hfs t2
        · rw [if_neg hname, if_neg hname]
          exact getTableLoop_dash o hfs t1

/-- Replacing dash tagged fields by untagged ones anywhere leaves the whole
resolution unchanged. -/
theorem getTable_dash (o : Options) (s₁ s₂ : GoStruct) (hn : s₁.name = s₂.name)
    (h : DashFields o s₁.fields s₂.fields) : getTable o s₁ = getTable o s₂ := by
  unfold getTable
  rw [getTableLoop_dash o h { Name := o.tableName }, hn]

/-- C9: a field whose column tag value is the literal dash is treated as
untagged. Resolution of a structure is unchanged when any such fields, at
any position nested ones included, are replaced by the same fields with
every column tag entry removed, and the column tag of such a field reads
empty, so the field contributes no column of its own. -/
theorem dash_tag_untagged :
    (∀ (o : Options) (s₁ s₂ : GoStruct), s₁.name = s₂.name →
      DashFields o s₁.fields s₂.fields → getTable o s₁ = getTable o s₂) ∧
    (∀ (o : Options) (tags : List (String × String)) (s : GoSub),
      tagGet o.columnTag tags = "-" → getTagValue o.columnTag (.mk tags s) = "") := by
  refine ⟨getTable_dash, ?_⟩
  intro o tags s h
  show (if tagGet o.columnTag tags = "-" then "" else tagGet o.columnTag tags) = ""
  rw [h]
  decide

theorem dash_tag_untagged_witness :
    getTable defaultOptions
      { name := "T",
        fields := GoFields.cons (.mk [("db", "-")] .leaf)
          (GoFields.cons (.mk [("db", "x")] .leaf) .nil) } =
    getTable defaultOptions
      { name := "T",
        fields := GoFields.cons (.mk ([("db", "-")].filter
            fun p => p.1 ≠ defaultOptions.columnTag) .leaf)
          (GoFields.cons (.mk [("db", "x")] .leaf) .nil) } ∧
    getTagValue defaultOptions.columnTag (.mk [("db", "-")] .leaf) = "" :=
  ⟨dash_tag_untagged.1 defaultOptions
    { name := "T",
      fields := GoFields.cons (.mk [("db", "-")] .leaf)
        (GoFields.cons (.mk [("db", "x")] .leaf) .nil) }
    { name := "T",
      fields := GoFields.cons (.mk ([("db", "-")].filter
          fun p => p.1 ≠ defaultOptions.columnTag) .leaf)
        (GoFields.cons (.mk [("db", "x")] .leaf) .nil) }
    rfl
    (DashFields.drop [("db", "-")] .leaf .leaf
      (GoFields.cons (.mk [("db", "x")] .leaf) .nil)
      (GoFields.cons (.mk [("db", "x")] .leaf) .nil)
      rfl DashSub.leaf
      (DashFields.keep [("db", "x")] .leaf .leaf .nil .nil DashSub.leaf DashFields.nil)),
   dash_tag_untagged.2 defaultOptions [("db", "-")] .leaf rfl⟩

/-! ### C10: empty option arguments are no ops -/

/-- C10: each options constructor passed the empty string leaves the options
value unchanged, the defaults are the dbtable table tag, the db column tag
and an empty configured table name, and building with the three empty
options equals building with none. -/
theorem empty_options_noop :
    (∀ o : Options, TableName "" o = o ∧ TableTag "" o = o ∧ WithColumnTag "" o = o) ∧
    defaultOptions = { tableName := "", tableTag := "dbtable", columnTag := "db" } ∧
    (∀ i : GoValue, New i [TableName "", TableTag "", WithColumnTag ""] = New i []) :=
  ⟨fun _ => ⟨rfl, rfl, rfl⟩, rfl, fun _ => rfl⟩

end QB
